import Mathlib

/-!
# CHIP-8 interpreter core (`src/Chip8.cpp`): shallow embedding

The class `Chip8` becomes a structure of natural numbers and arrays, the
arrays being functions from the index to the cell.  Every handler is a
function `Chip8 → Option Chip8`; `none` stands for an access outside the
bounds of one of the fixed-size arrays of the class (undefined behaviour in
the source).  Machine integers are natural numbers, truncated with an
explicit `% 2^w` wherever the C++ operation can leave the range of its type.
-/

namespace Chip8

/-- Array write `a[i] = v` on an array represented as a function. -/
def write (a : Nat → Nat) (i v : Nat) : Nat → Nat :=
  fun j => if j = i then v else a j

end Chip8

/-- The mutable fields of `class Chip8`.  `randDraws` and `randPos` stand for
`randGen`/`randByte`: the stream of numbers the generator hands out and the
number of draws made so far. -/
structure Chip8 where
  cpu_registers : Nat → Nat
  memory : Nat → Nat
  index_register : Nat
  program_counter : Nat
  stack : Nat → Nat
  stack_pointer : Nat
  delay_timer : Nat
  sound_timer : Nat
  keypad : Nat → Nat
  video : Nat → Nat
  opcode : Nat
  randDraws : Nat → Nat
  randPos : Nat

namespace Chip8

/-- Every field holds a value of its C++ type: `uint8_t` cells below `2^8`,
`uint16_t` below `2^16`, `uint32_t` below `2^32`. -/
structure WF (s : Chip8) : Prop where
  reg_lt : ∀ i, i < 16 → s.cpu_registers i < 256
  mem_lt : ∀ i, i < 4096 → s.memory i < 256
  index_lt : s.index_register < 65536
  pc_lt : s.program_counter < 65536
  stack_lt : ∀ i, i < 16 → s.stack i < 65536
  sp_lt : s.stack_pointer < 256
  delay_lt : s.delay_timer < 256
  sound_lt : s.sound_timer < 256
  keypad_lt : ∀ i, i < 16 → s.keypad i < 256
  video_lt : ∀ i, i < 2048 → s.video i < 4294967296
  opcode_lt : s.opcode < 65536

/-- The local `Vx` of the handlers: `(opcode & 0x0F00u) >> 8u`. -/
def opVx (opcode : Nat) : Nat := (opcode &&& 0x0F00) >>> 8

/-- The local `Vy` of the handlers: `(opcode & 0x00F0u) >> 4u`. -/
def opVy (opcode : Nat) : Nat := (opcode &&& 0x00F0) >>> 4

/-- The local `byte` of the handlers: `opcode & 0x00FFu`. -/
def opByte (opcode : Nat) : Nat := opcode &&& 0x00FF

/-- The local `address` of the handlers: `opcode & 0x0FFFu`. -/
def opAddr (opcode : Nat) : Nat := opcode &&& 0x0FFF

/-- The index into the primary table: `(opcode & 0xF000u) >> 12u`. -/
def opFamily (opcode : Nat) : Nat := (opcode &&& 0xF000) >>> 12

/-- The index into `table0`, `table8`, `tableE` and the sprite height of
`OP_Dxyn`: `opcode & 0x000Fu`. -/
def opNibble (opcode : Nat) : Nat := opcode &&& 0x000F

/-- The loop `for (i = 0; i < n; ++i) body(i)`: the first `n` iterations
are the first `n - 1` followed by iteration `n - 1`; an iteration that
faults ends the run. -/
def forLoop : Nat → (Nat → Chip8 → Option Chip8) → Chip8 → Option Chip8
  | 0, _, s => some s
  | n + 1, body, s => (forLoop n body s).bind (body n)

/-- The bytes of `fontset[80]`. -/
def fontset : List Nat :=
  [0xF0, 0x90, 0x90, 0x90, 0xF0,
   0x20, 0x60, 0x20, 0x20, 0x70,
   0xF0, 0x10, 0xF0, 0x80, 0xF0,
   0xF0, 0x10, 0xF0, 0x10, 0xF0,
   0x90, 0x90, 0xF0, 0x10, 0x10,
   0xF0, 0x80, 0xF0, 0x10, 0xF0,
   0xF0, 0x80, 0xF0, 0x90, 0xF0,
   0xF0, 0x10, 0x20, 0x40, 0x40,
   0xF0, 0x90, 0xF0, 0x90, 0xF0,
   0xF0, 0x90, 0xF0, 0x10, 0xF0,
   0xF0, 0x90, 0xF0, 0x90, 0x90,
   0xE0, 0x90, 0xE0, 0x90, 0xE0,
   0xF0, 0x80, 0x80, 0x80, 0xF0,
   0xE0, 0x90, 0x90, 0x90, 0xE0,
   0xF0, 0x80, 0xF0, 0x80, 0xF0,
   0xF0, 0x80, 0xF0, 0x80, 0x80]

/-- Invalid opcode: the handler only prints. -/
def OP_NULL (s : Chip8) : Option Chip8 := some s

/-- CLS: Clear the display (`memset` over the 2048 cells of `video`). -/
def OP_00E0 (s : Chip8) : Option Chip8 :=
  some { s with video := fun i => if i < 2048 then 0 else s.video i }

/-- RET: Return from a subroutine. -/
def OP_00EE (s : Chip8) : Option Chip8 :=
  let sp := (s.stack_pointer + 255) % 256
  if sp < 16 then
    some { s with stack_pointer := sp, program_counter := s.stack sp }
  else none

/-- JP addr: Jump to address. -/
def OP_1nnn (s : Chip8) : Option Chip8 :=
  some { s with program_counter := opAddr s.opcode }

/-- CALL addr: Call subroutine at address. -/
def OP_2nnn (s : Chip8) : Option Chip8 :=
  let address := opAddr s.opcode
  if s.stack_pointer < 16 then
    some { s with stack := write s.stack s.stack_pointer s.program_counter,
                  stack_pointer := (s.stack_pointer + 1) % 256,
                  program_counter := address }
  else none

/-- SE Vx, byte: Skip next instruction if Vx == byte. -/
def OP_3xkk (s : Chip8) : Option Chip8 :=
  let Vx := opVx s.opcode
  let byte := opByte s.opcode
  if s.cpu_registers Vx = byte then
    some { s with program_counter := (s.program_counter + 2) % 65536 }
  else some s

/-- SNE Vx, byte: Skip next instruction if Vx != byte. -/
def OP_4xkk (s : Chip8) : Option Chip8 :=
  let Vx := opVx s.opcode
  let byte := opByte s.opcode
  if s.cpu_registers Vx ≠ byte then
    some { s with program_counter := (s.program_counter + 2) % 65536 }
  else some s

/-- SE Vx, Vy: Skip next instruction if Vx == Vy. -/
def OP_5xy0 (s : Chip8) : Option Chip8 :=
  let Vx := opVx s.opcode
  let Vy := opVy s.opcode
  if s.cpu_registers Vx = s.cpu_registers Vy then
    some { s with program_counter := (s.program_counter + 2) % 65536 }
  else some s

/-- LD Vx, byte: Set Vx = byte. -/
def OP_6xkk (s : Chip8) : Option Chip8 :=
  let Vx := opVx s.opcode
  let byte := opByte s.opcode
  some { s with cpu_registers := write s.cpu_registers Vx byte }

/-- ADD Vx, byte: Set Vx = Vx + byte. -/
def OP_7xkk (s : Chip8) : Option Chip8 :=
  let Vx := opVx s.opcode
  let byte := opByte s.opcode
  some { s with cpu_registers := write s.cpu_registers Vx ((s.cpu_registers Vx + byte) % 256) }

/-- LD Vx, Vy: Set Vx = Vy. -/
def OP_8xy0 (s : Chip8) : Option Chip8 :=
  let Vx := opVx s.opcode
  let Vy := opVy s.opcode
  some { s with cpu_registers := write s.cpu_registers Vx (s.cpu_registers Vy) }

/-- OR Vx, Vy: Set Vx = Vx OR Vy. -/
def OP_8xy1 (s : Chip8) : Option Chip8 :=
  let Vx := opVx s.opcode
  let Vy := opVy s.opcode
  let v := s.cpu_registers Vx ||| s.cpu_registers Vy
  some { s with cpu_registers := write s.cpu_registers Vx v }

/-- AND Vx, Vy: Set Vx = Vx AND Vy. -/
def OP_8xy2 (s : Chip8) : Option Chip8 :=
  let Vx := opVx s.opcode
  let Vy := opVy s.opcode
  let v := s.cpu_registers Vx &&& s.cpu_registers Vy
  some { s with cpu_registers := write s.cpu_registers Vx v }

/-- XOR Vx, Vy: Set Vx = Vx XOR Vy. -/
def OP_8xy3 (s : Chip8) : Option Chip8 :=
  let Vx := opVx s.opcode
  let Vy := opVy s.opcode
  let v := s.cpu_registers Vx ^^^ s.cpu_registers Vy
  some { s with cpu_registers := write s.cpu_registers Vx v }

/-- ADD Vx, Vy: Set Vx = Vx + Vy, set VF = carry. -/
def OP_8xy4 (s : Chip8) : Option Chip8 :=
  let Vx := opVx s.opcode
  let Vy := opVy s.opcode
  let sum := (s.cpu_registers Vx + s.cpu_registers Vy) % 65536
  let regs := if sum > 255 then write s.cpu_registers 0xF 1 else write s.cpu_registers 0xF 0
  some { s with cpu_registers := write regs Vx (sum &&& 0xFF) }

/-- SUB Vx, Vy: Set Vx = Vx - Vy, set VF = NOT borrow.  The flag is stored
first; `cpu_registers[Vx] -= cpu_registers[Vy]` then reads both registers
again. -/
def OP_8xy5 (s : Chip8) : Option Chip8 :=
  let Vx := opVx s.opcode
  let Vy := opVy s.opcode
  let regs := if s.cpu_registers Vx > s.cpu_registers Vy
    then write s.cpu_registers 0xF 1 else write s.cpu_registers 0xF 0
  some { s with cpu_registers := write regs Vx ((regs Vx + 256 - regs Vy) % 256) }

/-- SHR Vx {, Vy}: Set Vx = Vx SHR 1.  The flag is stored first;
`cpu_registers[Vx] >>= 1` then reads the register again. -/
def OP_8xy6 (s : Chip8) : Option Chip8 :=
  let Vx := opVx s.opcode
  let regs := write s.cpu_registers 0xF (s.cpu_registers Vx &&& 0x1)
  some { s with cpu_registers := write regs Vx (regs Vx >>> 1) }

/-- SUBN Vx, Vy: Set Vx = Vy - Vx, set VF = NOT borrow.  The flag is stored
first; the difference then reads both registers again. -/
def OP_8xy7 (s : Chip8) : Option Chip8 :=
  let Vx := opVx s.opcode
  let Vy := opVy s.opcode
  let regs := if s.cpu_registers Vy > s.cpu_registers Vx
    then write s.cpu_registers 0xF 1 else write s.cpu_registers 0xF 0
  some { s with cpu_registers := write regs Vx ((regs Vy + 256 - regs Vx) % 256) }

/-- SHL Vx {, Vy}: Set Vx = Vx SHL 1.  The flag is stored first;
`cpu_registers[Vx] <<= 1` then reads the register again. -/
def OP_8xyE (s : Chip8) : Option Chip8 :=
  let Vx := opVx s.opcode
  let regs := write s.cpu_registers 0xF ((s.cpu_registers Vx &&& 0x80) >>> 7)
  some { s with cpu_registers := write regs Vx ((regs Vx <<< 1) % 256) }

/-- SNE Vx, Vy: Skip next instruction if Vx != Vy. -/
def OP_9xy0 (s : Chip8) : Option Chip8 :=
  let Vx := opVx s.opcode
  let Vy := opVy s.opcode
  if s.cpu_registers Vx ≠ s.cpu_registers Vy then
    some { s with program_counter := (s.program_counter + 2) % 65536 }
  else some s

/-- LD I, addr: Set I = addr. -/
def OP_Annn (s : Chip8) : Option Chip8 :=
  some { s with index_register := opAddr s.opcode }

/-- JP V0, addr: Jump to location V0 + addr. -/
def OP_Bnnn (s : Chip8) : Option Chip8 :=
  some { s with program_counter := (s.cpu_registers 0 + opAddr s.opcode) % 65536 }

/-- RND Vx, byte: Set Vx = random byte AND byte.  The distribution hands out
a number of `[0, 255]`: the next draw of the stream, reduced to that range. -/
def OP_Cxkk (s : Chip8) : Option Chip8 :=
  let Vx := opVx s.opcode
  let byte := opByte s.opcode
  some { s with cpu_registers := write s.cpu_registers Vx ((s.randDraws s.randPos % 256) &&& byte),
                randPos := s.randPos + 1 }

/-- One turn of the inner loop of `OP_Dxyn`.  The cell behind `screenPixel`
is read and written only under a set sprite bit; that access is out of range
when the index is past the 2048 cells of `video`. -/
def drawPixel (spriteByte xPos yPos row col : Nat) (s : Chip8) : Option Chip8 :=
  let spritePixel := spriteByte &&& (0x80 >>> col)
  let idx := (yPos + row) * 64 + (xPos + col)
  if spritePixel ≠ 0 then
    if idx < 2048 then
      let regs := if s.video idx = 0xFFFFFFFF then write s.cpu_registers 0xF 1 else s.cpu_registers
      some { s with cpu_registers := regs, video := write s.video idx (s.video idx ^^^ 0xFFFFFFFF) }
    else none
  else some s

/-- One turn of the outer loop of `OP_Dxyn`: fetch the sprite byte of the row,
then the eight columns. -/
def drawRow (xPos yPos row : Nat) (s : Chip8) : Option Chip8 :=
  if s.index_register + row < 4096 then
    forLoop 8 (drawPixel (s.memory (s.index_register + row)) xPos yPos row) s
  else none

/-- DRW Vx, Vy, nibble: Display n-byte sprite starting at memory location I
at (Vx, Vy), set VF = collision. -/
def OP_Dxyn (s : Chip8) : Option Chip8 :=
  let Vx := opVx s.opcode
  let Vy := opVy s.opcode
  let height := opNibble s.opcode
  let xPos := s.cpu_registers Vx % 64
  let yPos := s.cpu_registers Vy % 32
  forLoop height (drawRow xPos yPos) { s with cpu_registers := write s.cpu_registers 0xF 0 }

/-- SKP Vx: Skip next instruction if key with the value of Vx is pressed. -/
def OP_Ex9E (s : Chip8) : Option Chip8 :=
  let Vx := opVx s.opcode
  let key := s.cpu_registers Vx
  if key < 16 then
    if s.keypad key ≠ 0 then
      some { s with program_counter := (s.program_counter + 2) % 65536 }
    else some s
  else none

/-- SKNP Vx: Skip next instruction if key with the value of Vx is not pressed. -/
def OP_ExA1 (s : Chip8) : Option Chip8 :=
  let Vx := opVx s.opcode
  let key := s.cpu_registers Vx
  if key < 16 then
    if s.keypad key = 0 then
      some { s with program_counter := (s.program_counter + 2) % 65536 }
    else some s
  else none

/-- LD Vx, DT: Set Vx = delay timer value. -/
def OP_Fx07 (s : Chip8) : Option Chip8 :=
  let Vx := opVx s.opcode
  some { s with cpu_registers := write s.cpu_registers Vx s.delay_timer }

/-- LD Vx, K: Wait for a key press, store the value of the key in Vx.  The
scan returns at the first index of `0..15` whose key is down; without one the
program counter is set back by 2. -/
def OP_Fx0A (s : Chip8) : Option Chip8 :=
  let Vx := opVx s.opcode
  match (List.range 16).find? (fun i => s.keypad i != 0) with
  | some i => some { s with cpu_registers := write s.cpu_registers Vx i }
  | none => some { s with program_counter := (s.program_counter + 65536 - 2) % 65536 }

/-- LD DT, Vx: Set delay timer = Vx. -/
def OP_Fx15 (s : Chip8) : Option Chip8 :=
  let Vx := opVx s.opcode
  some { s with delay_timer := s.cpu_registers Vx }

/-- LD ST, Vx: Set sound timer = Vx. -/
def OP_Fx18 (s : Chip8) : Option Chip8 :=
  let Vx := opVx s.opcode
  some { s with sound_timer := s.cpu_registers Vx }

/-- ADD I, Vx: Set I = I + Vx. -/
def OP_Fx1E (s : Chip8) : Option Chip8 :=
  let Vx := opVx s.opcode
  some { s with index_register := (s.index_register + s.cpu_registers Vx) % 65536 }

/-- LD F, Vx: Set I = location of sprite for digit Vx
(`FONTSET_START_ADDRESS + 5 * digit`). -/
def OP_Fx29 (s : Chip8) : Option Chip8 :=
  let Vx := opVx s.opcode
  let digit := s.cpu_registers Vx
  some { s with index_register := (0x50 + 5 * digit) % 65536 }

/-- The store `memory[addr] = v`, in range below 4096. -/
def store (addr v : Nat) (s : Chip8) : Option Chip8 :=
  if addr < 4096 then some { s with memory := write s.memory addr v } else none

/-- LD B, Vx: Store BCD representation of Vx in memory locations I, I+1, and
I+2 (ones first, hundreds last). -/
def OP_Fx33 (s : Chip8) : Option Chip8 :=
  let Vx := opVx s.opcode
  let value := s.cpu_registers Vx
  (store (s.index_register + 2) (value % 10) s).bind fun s1 =>
  let value1 := value / 10
  (store (s1.index_register + 1) (value1 % 10) s1).bind fun s2 =>
  let value2 := value1 / 10
  store s2.index_register (value2 % 10) s2

/-- LD [I], Vx: Store registers V0 through Vx in memory starting at location I. -/
def OP_Fx55 (s : Chip8) : Option Chip8 :=
  let Vx := opVx s.opcode
  forLoop (Vx + 1) (fun i st => store (st.index_register + i) (st.cpu_registers i) st) s

/-- LD Vx, [I]: Read registers V0 through Vx from memory starting at location I. -/
def OP_Fx65 (s : Chip8) : Option Chip8 :=
  let Vx := opVx s.opcode
  forLoop (Vx + 1) (fun i st =>
    if st.index_register + i < 4096 then
      some { st with cpu_registers := write st.cpu_registers i (st.memory (st.index_register + i)) }
    else none) s

/-- The values of the member-function pointers stored in the sub-tables:
the 34 instruction handlers and `OP_NULL`. -/
inductive Chip8Func where
  | OP_NULL | OP_00E0 | OP_00EE | OP_1nnn | OP_2nnn | OP_3xkk | OP_4xkk | OP_5xy0
  | OP_6xkk | OP_7xkk | OP_8xy0 | OP_8xy1 | OP_8xy2 | OP_8xy3 | OP_8xy4 | OP_8xy5
  | OP_8xy6 | OP_8xy7 | OP_8xyE | OP_9xy0 | OP_Annn | OP_Bnnn | OP_Cxkk | OP_Dxyn
  | OP_Ex9E | OP_ExA1 | OP_Fx07 | OP_Fx0A | OP_Fx15 | OP_Fx18 | OP_Fx1E | OP_Fx29
  | OP_Fx33 | OP_Fx55 | OP_Fx65
  deriving DecidableEq, Repr

/-- Calling through a handler pointer: `((*this).*(f))()`. -/
def Chip8Func.call : Chip8Func → Chip8 → Option Chip8
  | .OP_NULL => Chip8.OP_NULL
  | .OP_00E0 => Chip8.OP_00E0
  | .OP_00EE => Chip8.OP_00EE
  | .OP_1nnn => Chip8.OP_1nnn
  | .OP_2nnn => Chip8.OP_2nnn
  | .OP_3xkk => Chip8.OP_3xkk
  | .OP_4xkk => Chip8.OP_4xkk
  | .OP_5xy0 => Chip8.OP_5xy0
  | .OP_6xkk => Chip8.OP_6xkk
  | .OP_7xkk => Chip8.OP_7xkk
  | .OP_8xy0 => Chip8.OP_8xy0
  | .OP_8xy1 => Chip8.OP_8xy1
  | .OP_8xy2 => Chip8.OP_8xy2
  | .OP_8xy3 => Chip8.OP_8xy3
  | .OP_8xy4 => Chip8.OP_8xy4
  | .OP_8xy5 => Chip8.OP_8xy5
  | .OP_8xy6 => Chip8.OP_8xy6
  | .OP_8xy7 => Chip8.OP_8xy7
  | .OP_8xyE => Chip8.OP_8xyE
  | .OP_9xy0 => Chip8.OP_9xy0
  | .OP_Annn => Chip8.OP_Annn
  | .OP_Bnnn => Chip8.OP_Bnnn
  | .OP_Cxkk => Chip8.OP_Cxkk
  | .OP_Dxyn => Chip8.OP_Dxyn
  | .OP_Ex9E => Chip8.OP_Ex9E
  | .OP_ExA1 => Chip8.OP_ExA1
  | .OP_Fx07 => Chip8.OP_Fx07
  | .OP_Fx0A => Chip8.OP_Fx0A
  | .OP_Fx15 => Chip8.OP_Fx15
  | .OP_Fx18 => Chip8.OP_Fx18
  | .OP_Fx1E => Chip8.OP_Fx1E
  | .OP_Fx29 => Chip8.OP_Fx29
  | .OP_Fx33 => Chip8.OP_Fx33
  | .OP_Fx55 => Chip8.OP_Fx55
  | .OP_Fx65 => Chip8.OP_Fx65

/-- The array `table0[0xE + 1]` as the constructor fills it. -/
def table0 : List Chip8Func :=
  ((List.replicate (0xE + 1) Chip8Func.OP_NULL).set 0x0 .OP_00E0).set 0xE .OP_00EE

/-- The array `table8[0xE + 1]` as the constructor fills it. -/
def table8 : List Chip8Func :=
  (((((((((List.replicate (0xE + 1) Chip8Func.OP_NULL).set 0x0 .OP_8xy0).set 0x1 .OP_8xy1).set 0x2
    .OP_8xy2).set 0x3 .OP_8xy3).set 0x4 .OP_8xy4).set 0x5 .OP_8xy5).set 0x6 .OP_8xy6).set 0x7
    .OP_8xy7).set 0xE .OP_8xyE

/-- The array `tableE[0xE + 1]` as the constructor fills it. -/
def tableE : List Chip8Func :=
  ((List.replicate (0xE + 1) Chip8Func.OP_NULL).set 0x1 .OP_ExA1).set 0xE .OP_Ex9E

/-- The array `tableF[0x65 + 1]` as the constructor fills it. -/
def tableF : List Chip8Func :=
  (((((((((List.replicate (0x65 + 1) Chip8Func.OP_NULL).set 0x07 .OP_Fx07).set 0x0A .OP_Fx0A).set
    0x15 .OP_Fx15).set 0x18 .OP_Fx18).set 0x1E .OP_Fx1E).set 0x29 .OP_Fx29).set 0x33 .OP_Fx33).set
    0x55 .OP_Fx55).set 0x65 .OP_Fx65

/-- Calling `table0[opcode & 0x000Fu]`; an index past the end of the array
is an access out of range. -/
def Table0 (s : Chip8) : Option Chip8 :=
  match table0[opNibble s.opcode]? with
  | some f => f.call s
  | none => none

/-- Calling `table8[opcode & 0x000Fu]`. -/
def Table8 (s : Chip8) : Option Chip8 :=
  match table8[opNibble s.opcode]? with
  | some f => f.call s
  | none => none

/-- Calling `tableE[opcode & 0x000Fu]`. -/
def TableE (s : Chip8) : Option Chip8 :=
  match tableE[opNibble s.opcode]? with
  | some f => f.call s
  | none => none

/-- Calling `tableF[opcode & 0x00FFu]`. -/
def TableF (s : Chip8) : Option Chip8 :=
  match tableF[opByte s.opcode]? with
  | some f => f.call s
  | none => none

/-- The values stored in the primary array `table`: a handler, or one of the
four functions that go through a sub-table. -/
inductive TableEntry where
  | op (f : Chip8Func)
  | Table0 | Table8 | TableE | TableF
  deriving DecidableEq, Repr

/-- Calling through an entry of the primary table. -/
def TableEntry.call : TableEntry → Chip8 → Option Chip8
  | .op f => f.call
  | .Table0 => Chip8.Table0
  | .Table8 => Chip8.Table8
  | .TableE => Chip8.TableE
  | .TableF => Chip8.TableF

/-- The array `table[0xF + 1]` as the constructor fills it. -/
def table : List TableEntry :=
  [.Table0, .op .OP_1nnn, .op .OP_2nnn, .op .OP_3xkk, .op .OP_4xkk, .op .OP_5xy0, .op .OP_6xkk,
   .op .OP_7xkk, .Table8, .op .OP_9xy0, .op .OP_Annn, .op .OP_Bnnn, .op .OP_Cxkk, .op .OP_Dxyn,
   .TableE, .TableF]

/-- The word `Cycle` fetches: `(memory[program_counter] << 8u) |
memory[program_counter + 1]`, stored in the 16-bit `opcode`. -/
def fetch (s : Chip8) : Nat :=
  ((s.memory s.program_counter <<< 8) ||| s.memory (s.program_counter + 1)) % 65536

/-- The end of `Cycle`: each timer goes down by one when it is above zero. -/
def tickTimers (s : Chip8) : Chip8 :=
  { s with delay_timer := if s.delay_timer > 0 then s.delay_timer - 1 else s.delay_timer,
           sound_timer := if s.sound_timer > 0 then s.sound_timer - 1 else s.sound_timer }

/-- The state `Cycle` hands to the handler: the fetched word in `opcode`,
the program counter advanced by 2. -/
def fetched (s : Chip8) : Chip8 :=
  { s with opcode := fetch s, program_counter := (s.program_counter + 2) % 65536 }

/-- CPU Cycle: fetch (both bytes inside `memory`), advance the program
counter by 2, call the handler of `table[(opcode & 0xF000u) >> 12u]`, then
the timers. -/
def Cycle (s : Chip8) : Option Chip8 :=
  if s.program_counter + 1 < 4096 then
    let s1 := fetched s
    match table[opFamily s1.opcode]? with
    | some f => (f.call s1).map tickTimers
    | none => none
  else none

/-- The first `n` turns of the constructor's loop
`memory[FONTSET_START_ADDRESS + i] = fontset[i]`. -/
def loadFont : Nat → (Nat → Nat) → (Nat → Nat)
  | 0, memory => memory
  | n + 1, memory => write (loadFont n memory) (0x50 + n) (fontset.getD n 0)

/-- The state the constructor builds: every field zero-initialised, the
program counter at `START_ADDRESS`, the `FONTSET_SIZE = 80` bytes of the font
copied to `FONTSET_START_ADDRESS`.  `draws` is the stream of the seeded
generator. -/
def init (draws : Nat → Nat) : Chip8 :=
  { cpu_registers := fun _ => 0
    memory := loadFont 80 (fun _ => 0)
    index_register := 0
    program_counter := 0x200
    stack := fun _ => 0
    stack_pointer := 0
    delay_timer := 0
    sound_timer := 0
    keypad := fun _ => 0
    video := fun _ => 0
    opcode := 0
    randDraws := draws
    randPos := 0 }

/-- The handler the two table levels select for the instruction word `w`:
the entry of `table`, then for the families 0, 8, E and F the entry of the
sub-table; `none` when an index is past the end of its array. -/
def decode (w : Nat) : Option Chip8Func :=
  match table[opFamily w]? with
  | some (.op f) => some f
  | some .Table0 => table0[opNibble w]?
  | some .Table8 => table8[opNibble w]?
  | some .TableE => tableE[opNibble w]?
  | some .TableF => tableF[opByte w]?
  | none => none

/-- Calling `Cycle` `n` times in succession. -/
def cycles : Nat → Chip8 → Option Chip8
  | 0, s => some s
  | n + 1, s => (Cycle s).bind (cycles n)

/-- None of the next `n` cycles from `s` executes the handler `f` (a cycle
that faults ends the run). -/
def avoids (f : Chip8Func) : Nat → Chip8 → Bool
  | 0, _ => true
  | n + 1, s =>
    decide (decode (fetch s) ≠ some f) &&
      (match Cycle s with
       | some s1 => avoids f n s1
       | none => true)

/-- A machine about to run `8124` (V1 += V2) with V1 = 200 and V2 = 100. -/
def addState : Chip8 :=
  { init (fun _ => 0) with
    cpu_registers := write (write (fun _ => 0) 1 200) 2 100, opcode := 0x8124 }

/-- A machine about to run `80F5` (V0 -= VF) with V0 = 5 and VF = 3. -/
def subState : Chip8 :=
  { init (fun _ => 0) with
    cpu_registers := write (write (fun _ => 0) 0 5) 15 3, opcode := 0x80F5 }

/-- A machine about to run `80F7` (V0 = VF - V0) with V0 = 3 and VF = 5. -/
def subnState : Chip8 :=
  { init (fun _ => 0) with
    cpu_registers := write (write (fun _ => 0) 0 3) 15 5, opcode := 0x80F7 }

/-- A machine about to run `8F06` (VF >>= 1) with VF = 1. -/
def shrFlagState : Chip8 :=
  { init (fun _ => 0) with cpu_registers := write (fun _ => 0) 15 1, opcode := 0x8F06 }

/-- A machine about to run `8306` or `830E` (shift V3) with V3 = 0x85. -/
def shiftState (opcode : Nat) : Chip8 :=
  { init (fun _ => 0) with cpu_registers := write (fun _ => 0) 3 0x85, opcode := opcode }

/-- A machine about to run `8F0E` (VF <<= 1) with VF = 0x80. -/
def shlFlagState : Chip8 :=
  { init (fun _ => 0) with cpu_registers := write (fun _ => 0) 15 0x80, opcode := 0x8F0E }

/-- A cycle started at program counter `p` behaves as a conditional skip on
`cond`: it completes, leaves the program counter at `p + 4` when `cond` holds
and at `p + 2` otherwise, and changes no register. -/
def SkipsWhen (s : Chip8) (p : Nat) (cond : Prop) [Decidable cond] : Prop :=
  ∃ s', Cycle s = some s' ∧
    s'.program_counter = (if cond then p + 4 else p + 2) ∧
    ∀ i, s'.cpu_registers i = s.cpu_registers i

/-- A machine at `0x200` whose next instruction word is `hi lo`, with
V1 = V2 = 7, V3 = 9 and key 7 down. -/
def skipState (hi lo : Nat) : Chip8 :=
  { init (fun _ => 0) with
    memory := write (write (init (fun _ => 0)).memory 0x200 hi) 0x201 lo
    cpu_registers := write (write (write (fun _ => 0) 1 7) 2 7) 3 9
    keypad := write (fun _ => 0) 7 1 }

/-- Sprite bit `k mod 8` of sprite row `k div 8` is set in the memory of `s`:
the test `spriteByte & (0x80u >> col)` of `OP_Dxyn`, the turns of the two
loops being numbered `k = 8 * row + col`. -/
def spriteBit (s : Chip8) (k : Nat) : Prop :=
  s.memory (s.index_register + k / 8) &&& (0x80 >>> (k % 8)) ≠ 0

/-- The cell `(yPos + row) * 64 + (xPos + col)` addressed in turn
`k = 8 * row + col` of the loops of `OP_Dxyn`. -/
def cellOf (xPos yPos k : Nat) : Nat := (yPos + k / 8) * 64 + (xPos + k % 8)

/-- Cell `i` is addressed under a set sprite bit in one of the first `K`
turns of the draw loops. -/
def Hit (s : Chip8) (xPos yPos K i : Nat) : Prop :=
  ∃ k, k < K ∧ spriteBit s k ∧ cellOf xPos yPos k = i

/-- One of the first `K` turns of the draw loops meets a set sprite bit on a
cell that holds `0xFFFFFFFF` in `s`. -/
def Collides (s : Chip8) (xPos yPos K : Nat) : Prop :=
  ∃ k, k < K ∧ spriteBit s k ∧ s.video (cellOf xPos yPos k) = 0xFFFFFFFF

/-- The fields `OP_Dxyn` never writes. -/
def drawFrame (s : Chip8) :=
  (s.memory, s.index_register, s.program_counter, s.stack, s.stack_pointer, s.delay_timer,
    s.sound_timer, s.keypad, s.opcode, s.randDraws, s.randPos)

/-- The state `st` reached from `s0` after the first `K` turns of the draw
loops: the cells hit are inverted, the others kept; register 15 is 1 after a
collision and 0 without; nothing else differs from `s0`. -/
structure DrawInv (s0 : Chip8) (xPos yPos K : Nat) (st : Chip8) : Prop where
  frame : drawFrame st = drawFrame s0
  regs : ∀ i, i ≠ 15 → st.cpu_registers i = s0.cpu_registers i
  hit : ∀ i, Hit s0 xPos yPos K i → st.video i = s0.video i ^^^ 0xFFFFFFFF
  miss : ∀ i, ¬ Hit s0 xPos yPos K i → st.video i = s0.video i
  coll : Collides s0 xPos yPos K → st.cpu_registers 15 = 1
  free : ¬ Collides s0 xPos yPos K → st.cpu_registers 15 = 0

/-- A freshly constructed machine about to run `D015`: the five rows of the
glyph `0` (index register at the font) drawn at column V0 = 0, row V1 = 0. -/
def drawState : Chip8 :=
  { init (fun _ => 0) with index_register := 0x50, opcode := 0xD015 }

/-- A machine about to run `F433` with V4 = 234 and the index register at
`0x300`. -/
def bcdState : Chip8 :=
  { init (fun _ => 0) with
    cpu_registers := write (fun _ => 0) 4 234, index_register := 0x300, opcode := 0xF433 }

/-- A machine at `0x200` over zeroed program memory, both timers at 3. -/
def timerState : Chip8 :=
  { init (fun _ => 0) with delay_timer := 3, sound_timer := 3 }

/-- The state after five cycles from `timerState`. -/
def timerStateAfter : Chip8 := (cycles 5 timerState).getD timerState

/-- A machine at `0x200` whose next instruction word is `F30A` (wait for a
key, into V3), with the keypad levels `keys`. -/
def keyState (keys : Nat → Nat) : Chip8 :=
  { init (fun _ => 0) with
    memory := write (write (init (fun _ => 0)).memory 0x200 0xF3) 0x201 0x0A
    keypad := keys }

/-- Keypad levels with the keys 5 and 9 down. -/
def keysDown : Nat → Nat := write (write (fun _ => 0) 9 1) 5 1

/-- A machine at `0x200` with `2300` (call `0x300`) there and `00EE` (return)
at `0x300`, two return addresses already on the stack. -/
def callState : Chip8 :=
  { init (fun _ => 0) with
    memory := write (write (write (write (init (fun _ => 0)).memory 0x200 0x23) 0x201 0x00)
                0x300 0x00) 0x301 0xEE
    stack_pointer := 2 }

/-- A freshly constructed machine whose first instruction word is `hi lo`. -/
def wordState (hi lo : Nat) : Chip8 :=
  { init (fun _ => 0) with
    memory := write (write (init (fun _ => 0)).memory 0x200 hi) 0x201 lo }

/-- A machine about to run `8F04` (VF += V0) with VF = 3 and V0 = 4. -/
def addFlagState : Chip8 :=
  { init (fun _ => 0) with
    cpu_registers := write (write (fun _ => 0) 15 3) 0 4, opcode := 0x8F04 }

/-- A machine with V1 = 200 and VF = 100 whose opcode names `x = 1` and
`y = 15`. -/
def flagOperandState : Chip8 :=
  { init (fun _ => 0) with
    cpu_registers := write (write (fun _ => 0) 1 200) 15 100, opcode := 0x81F4 }

/-- Bit `7 - col` of the sprite byte `memory[index_register + row]` is set. -/
def rowBit (s : Chip8) (row col : Nat) : Prop :=
  s.memory (s.index_register + row) / 2 ^ (7 - col) % 2 = 1

/-- A machine about to run `D015` over a framebuffer whose first cell is on:
the glyph `0` drawn at the top left corner collides there. -/
def drawOnState : Chip8 :=
  { init (fun _ => 0) with
    index_register := 0x50, opcode := 0xD015, video := write (fun _ => 0) 0 0xFFFFFFFF }

/-- A freshly constructed machine about to run `D011` with V0 = 60, V1 = 0
and the one sprite byte `0xFF` at the index register `0x300`: a sprite row
that starts four columns before the right edge. -/
def wrapState : Chip8 :=
  { init (fun _ => 0) with
    cpu_registers := write (fun _ => 0) 0 60
    memory := write (init (fun _ => 0)).memory 0x300 0xFF
    index_register := 0x300
    opcode := 0xD011 }

/-- A freshly constructed machine about to run `F229` with V2 = 0xA. -/
def glyphState : Chip8 :=
  { init (fun _ => 0) with cpu_registers := write (fun _ => 0) 2 0xA, opcode := 0xF229 }

/-- The loop of `LoadRom` over the bytes read from the file:
`memory[START_ADDRESS + i] = buffer[i]`, each `char` stored as a byte. -/
def loadBytes (buffer : List Nat) (s : Chip8) : Option Chip8 :=
  forLoop buffer.length (fun i st => store (0x200 + i) (buffer.getD i 0 % 256) st) s

/-- The member function `LoadRom`: `file` is the content of the file, `none`
when it could not be opened, in which case nothing is done. -/
def LoadRom (file : Option (List Nat)) (s : Chip8) : Option Chip8 :=
  match file with
  | some buffer => loadBytes buffer s
  | none => some s

/-- A machine about to run `F355` (store V0..V3) with V0..V3 = 11, 22, 33, 44
and the index register at `0x300`. -/
def storeState : Chip8 :=
  { init (fun _ => 0) with
    cpu_registers := write (write (write (write (fun _ => 0) 0 11) 1 22) 2 33) 3 44
    index_register := 0x300
    opcode := 0xF355 }

/-- Every one of the 2048 framebuffer cells is 0 or `0xFFFFFFFF`. -/
def TwoValued (s : Chip8) : Prop :=
  ∀ i, i < 2048 → s.video i = 0 ∨ s.video i = 0xFFFFFFFF

/-- The states the program of `c8.cpp` can be in between two steps: the
constructed machine, then any number of `LoadRom` calls, calls of `Cycle`
that complete, and writes of the host to the 16 keypad entries. -/
inductive Reachable : Chip8 → Prop where
  | constructed (draws : Nat → Nat) : Reachable (init draws)
  | loaded (file : Option (List Nat)) (s s' : Chip8) :
      Reachable s → LoadRom file s = some s' → Reachable s'
  | cycle (s s' : Chip8) : Reachable s → Cycle s = some s' → Reachable s'
  | keys (k : Nat → Nat) (s : Chip8) :
      Reachable s → Reachable { s with keypad := fun i => if i < 16 then k i else s.keypad i }

/-- A machine at `0x200` whose next instruction word is `F4 lo`, with V4 = 9
and the delay timer at 5. -/
def timerWriteState (lo : Nat) : Chip8 :=
  { init (fun _ => 0) with
    memory := write (write (init (fun _ => 0)).memory 0x200 0xF4) 0x201 lo
    cpu_registers := write (fun _ => 0) 4 9
    delay_timer := 5 }

theorem opVx_lt (op : Nat) : opVx op < 16 := by
  have h : op &&& 0x0F00 ≤ 0x0F00 := Nat.and_le_right
  unfold opVx
  rw [Nat.shiftRight_eq_div_pow]
  omega

theorem opVy_lt (op : Nat) : opVy op < 16 := by
  have h : op &&& 0x00F0 ≤ 0x00F0 := Nat.and_le_right
  unfold opVy
  rw [Nat.shiftRight_eq_div_pow]
  omega

@[simp] theorem write_same (a : Nat → Nat) (i v : Nat) : write a i v i = v := by
  simp [write]

theorem write_other (a : Nat → Nat) (i v j : Nat) (h : j ≠ i) : write a i v j = a j := by
  simp [write, h]

theorem and_ff (v : Nat) : v &&& 0xFF = v % 256 :=
  Nat.and_pow_two_sub_one_eq_mod v 8

theorem and_one (v : Nat) : v &&& 0x1 = v % 2 :=
  Nat.and_pow_two_sub_one_eq_mod v 1

theorem shiftRight_and (a b n : Nat) : (a &&& b) >>> n = (a >>> n) &&& (b >>> n) := by
  induction n with
  | zero => rfl
  | succ n ih => rw [Nat.shiftRight_succ, ih, Nat.and_div_two, ← Nat.shiftRight_succ,
      ← Nat.shiftRight_succ]

theorem top_bit (v : Nat) (h : v < 256) : (v &&& 0x80) >>> 7 = v / 128 := by
  rw [shiftRight_and]
  have h1 : (0x80 : Nat) >>> 7 = 2 ^ 1 - 1 := by decide
  rw [h1, Nat.and_pow_two_sub_one_eq_mod, Nat.shiftRight_eq_div_pow]
  omega

theorem fontset_lt : ∀ k, k < 80 → fontset.getD k 0 < 256 := by decide

/-- After `n` turns of the font loop the cells `0x50 .. 0x50 + n - 1` hold
the first `n` font bytes and every other cell is as before. -/
theorem loadFont_apply (n : Nat) (memory : Nat → Nat) (a : Nat) :
    loadFont n memory a
      = if 0x50 ≤ a ∧ a < 0x50 + n then fontset.getD (a - 0x50) 0 else memory a := by
  induction n with
  | zero =>
    have h : ¬ (0x50 ≤ a ∧ a < 0x50 + 0) := by omega
    rw [if_neg h]
    rfl
  | succ n ih =>
    simp only [loadFont, write]
    by_cases ha : a = 0x50 + n
    · have h : 0x50 ≤ a ∧ a < 0x50 + (n + 1) := by omega
      have hn : a - 0x50 = n := by omega
      rw [if_pos ha, if_pos h, hn]
    · rw [if_neg ha, ih]
      by_cases h : 0x50 ≤ a ∧ a < 0x50 + n
      · rw [if_pos h, if_pos (by omega)]
      · rw [if_neg h, if_neg (by omega)]

theorem init_WF (draws : Nat → Nat) : (init draws).WF := by
  refine ⟨?_, ?_, ?_, ?_, ?_, ?_, ?_, ?_, ?_, ?_, ?_⟩ <;> simp only [init] <;> try (intros; omega)
  intro i _
  rw [loadFont_apply]
  split
  · exact fontset_lt (i - 0x50) (by omega)
  · omega

theorem WF_regs_opcode (s : Chip8) (h : s.WF) (r : Nat → Nat) (op : Nat)
    (hr : ∀ i, i < 16 → r i < 256) (hop : op < 65536) :
    WF { s with cpu_registers := r, opcode := op } :=
  ⟨hr, h.mem_lt, h.index_lt, h.pc_lt, h.stack_lt, h.sp_lt, h.delay_lt, h.sound_lt, h.keypad_lt,
    h.video_lt, hop⟩

/-- C1. Add-with-carry `OP_8xy4`: with `x` not the flag register (`y` any
register, also `x` itself or 15), register `x` ends as `(a + b) mod 256`,
register 15 as 1 when `a + b > 255` and 0 otherwise, for `a`, `b` the values
of registers `x`, `y` before the handler; no other register changes. -/
theorem OP_8xy4_add_with_carry (s : Chip8) (x y : Nat) (hwf : s.WF)
    (hx : opVx s.opcode = x) (hy : opVy s.opcode = y) (hxF : x ≠ 15) :
    ∃ s', OP_8xy4 s = some s' ∧
      s'.cpu_registers x = (s.cpu_registers x + s.cpu_registers y) % 256 ∧
      s'.cpu_registers 15 = (if s.cpu_registers x + s.cpu_registers y > 255 then 1 else 0) ∧
      ∀ i, i ≠ x → i ≠ 15 → s'.cpu_registers i = s.cpu_registers i := by
  have hxl : x < 16 := hx ▸ opVx_lt _
  have hyl : y < 16 := hy ▸ opVy_lt _
  have ha := hwf.reg_lt x hxl
  have hb := hwf.reg_lt y hyl
  have hsum : (s.cpu_registers x + s.cpu_registers y) % 65536
      = s.cpu_registers x + s.cpu_registers y := Nat.mod_eq_of_lt (by omega)
  refine ⟨_, rfl, ?_, ?_, ?_⟩
  · simp only [hx, hy, hsum, write_same, and_ff]
  · simp only [hx, hy, hsum]
    rw [write_other _ _ _ _ (Ne.symm hxF)]
    split <;> simp
  · intro i hi hiF
    simp only [hx, hy, hsum]
    rw [write_other _ _ _ _ hi]
    split <;> rw [write_other _ _ _ _ hiF]

theorem addState_WF : addState.WF :=
  WF_regs_opcode _ (init_WF _) _ _ (by intro i _; simp only [write]; split_ifs <;> omega) (by decide)

/-- C1 at `addState`: `8124` with V1 = 200, V2 = 100. -/
theorem OP_8xy4_add_with_carry_witness :
    addState.WF ∧ opVx addState.opcode = 1 ∧ opVy addState.opcode = 2 ∧ (1 : Nat) ≠ 15 ∧
    ∃ s', OP_8xy4 addState = some s' ∧
      s'.cpu_registers 1 = (addState.cpu_registers 1 + addState.cpu_registers 2) % 256 ∧
      s'.cpu_registers 15
        = (if addState.cpu_registers 1 + addState.cpu_registers 2 > 255 then 1 else 0) ∧
      ∀ i, i ≠ 1 → i ≠ 15 → s'.cpu_registers i = addState.cpu_registers i :=
  ⟨addState_WF, by decide, by decide, by decide,
    OP_8xy4_add_with_carry addState 1 2 addState_WF (by decide) (by decide) (by decide)⟩

theorem subState_WF : subState.WF :=
  WF_regs_opcode _ (init_WF _) _ _ (by intro i _; simp only [write]; split_ifs <;> omega) (by decide)

theorem subnState_WF : subnState.WF :=
  WF_regs_opcode _ (init_WF _) _ _ (by intro i _; simp only [write]; split_ifs <;> omega) (by decide)

/-- C2, the subtraction away from operand register 15: with `x` and `y` both
different from 15, `OP_8xy5` leaves `(Vx - Vy) mod 256` in register `x` and
`OP_8xy7` leaves `(Vy - Vx) mod 256`, the flag being 1 exactly when the
minuend is greater than the subtrahend. -/
theorem sub_not_borrow_y_ne_flag (s : Chip8) (x y : Nat) (hwf : s.WF)
    (hx : opVx s.opcode = x) (hy : opVy s.opcode = y) (hxF : x ≠ 15) (hyF : y ≠ 15) :
    (∃ s', OP_8xy5 s = some s' ∧
      (s'.cpu_registers x : Int) = ((s.cpu_registers x : Int) - s.cpu_registers y) % 256 ∧
      s'.cpu_registers 15 = (if s.cpu_registers x > s.cpu_registers y then 1 else 0)) ∧
    (∃ s', OP_8xy7 s = some s' ∧
      (s'.cpu_registers x : Int) = ((s.cpu_registers y : Int) - s.cpu_registers x) % 256 ∧
      s'.cpu_registers 15 = (if s.cpu_registers y > s.cpu_registers x then 1 else 0)) := by
  have ha := hwf.reg_lt x (hx ▸ opVx_lt _)
  have hb := hwf.reg_lt y (hy ▸ opVy_lt _)
  refine ⟨⟨_, rfl, ?_, ?_⟩, ⟨_, rfl, ?_, ?_⟩⟩ <;> simp only [hx, hy, write_same]
  · have h : ∀ r : Nat → Nat, r x = s.cpu_registers x → r y = s.cpu_registers y →
        ((r x + 256 - r y) % 256 : Nat) = ((s.cpu_registers x : Int) - s.cpu_registers y) % 256 := by
      intro r h1 h2
      rw [h1, h2]
      omega
    refine h _ ?_ ?_ <;> split <;> simp [write_other, hxF, hyF]
  · rw [write_other _ _ _ _ (Ne.symm hxF)]
    split <;> simp
  · have h : ∀ r : Nat → Nat, r x = s.cpu_registers x → r y = s.cpu_registers y →
        ((r y + 256 - r x) % 256 : Nat) = ((s.cpu_registers y : Int) - s.cpu_registers x) % 256 := by
      intro r h1 h2
      rw [h1, h2]
      omega
    refine h _ ?_ ?_ <;> split <;> simp [write_other, hxF, hyF]
  · rw [write_other _ _ _ _ (Ne.symm hxF)]
    split <;> simp

/-- C2 at operand register 15: `80F5` with V0 = 5 and VF = 3 stores the
flag 1 into VF before the subtraction reads VF, so V0 ends as 5 - 1 = 4, not
(5 - 3) mod 256 = 2; `80F7` with V0 = 3 and VF = 5 ends with V0 = (1 - 3) mod
256 = 254, not (5 - 3) mod 256 = 2.  Both states are well formed and have
`x = 0`, `y = 15`. -/
theorem sub_not_borrow_flag_operand :
    subState.WF ∧ opVx subState.opcode = 0 ∧ opVy subState.opcode = 15 ∧
    subState.cpu_registers 0 = 5 ∧ subState.cpu_registers 15 = 3 ∧
    (OP_8xy5 subState).map (fun s => (s.cpu_registers 0, s.cpu_registers 15)) = some (4, 1) ∧
    subnState.WF ∧ opVx subnState.opcode = 0 ∧ opVy subnState.opcode = 15 ∧
    subnState.cpu_registers 0 = 3 ∧ subnState.cpu_registers 15 = 5 ∧
    (OP_8xy7 subnState).map (fun s => (s.cpu_registers 0, s.cpu_registers 15)) = some (254, 1) :=
  ⟨subState_WF, by decide, by decide, by decide, by decide, by decide,
    subnState_WF, by decide, by decide, by decide, by decide, by decide⟩

theorem shrFlagState_WF : shrFlagState.WF :=
  WF_regs_opcode _ (init_WF _) _ _ (by intro i _; simp only [write]; split_ifs <;> omega)
    (by decide)

theorem shlFlagState_WF : shlFlagState.WF :=
  WF_regs_opcode _ (init_WF _) _ _ (by intro i _; simp only [write]; split_ifs <;> omega)
    (by decide)

theorem shiftState_WF (op : Nat) (h : op < 65536) : (shiftState op).WF :=
  WF_regs_opcode _ (init_WF _) _ _ (by intro i _; simp only [write]; split_ifs <;> omega) h

/-- C3 as stated fails when `x` is the flag register: `8F06` on VF = 1 ends
with register 15 equal to 0 although `v mod 2 = 1`, and `8F0E` on VF = 0x80
ends with register 15 equal to 2 although `v div 128 = 1`. -/
theorem shift_flag_register_operand :
    shrFlagState.WF ∧ opVx shrFlagState.opcode = 15 ∧
    shrFlagState.cpu_registers (opVx shrFlagState.opcode) % 2 = 1 ∧
    (OP_8xy6 shrFlagState).map (fun s => s.cpu_registers 15) = some 0 ∧
    shlFlagState.WF ∧ opVx shlFlagState.opcode = 15 ∧
    shlFlagState.cpu_registers (opVx shlFlagState.opcode) / 128 = 1 ∧
    (OP_8xyE shlFlagState).map (fun s => s.cpu_registers 15) = some 2 :=
  ⟨shrFlagState_WF, by decide, by decide, by decide, shlFlagState_WF, by decide, by decide,
    by decide⟩

/-- C3 amended. Shift flag extraction for `x` other than 15: with `v` the
value of register `x` before the handler, `OP_8xy6` leaves `v mod 2` in
register 15 and `v div 2` in register `x`; `OP_8xyE` leaves `v div 128` in
register 15 and `(2 * v) mod 256` in register `x`. -/
theorem shift_flag_extraction (s : Chip8) (x : Nat) (hwf : s.WF)
    (hx : opVx s.opcode = x) (hxF : x ≠ 15) :
    (∃ s', OP_8xy6 s = some s' ∧
      s'.cpu_registers 15 = s.cpu_registers x % 2 ∧
      s'.cpu_registers x = s.cpu_registers x / 2) ∧
    (∃ s', OP_8xyE s = some s' ∧
      s'.cpu_registers 15 = s.cpu_registers x / 128 ∧
      s'.cpu_registers x = (2 * s.cpu_registers x) % 256) := by
  have hv := hwf.reg_lt x (hx ▸ opVx_lt _)
  refine ⟨⟨_, rfl, ?_, ?_⟩, ⟨_, rfl, ?_, ?_⟩⟩ <;> simp only [hx, write_same]
  · rw [write_other _ _ _ _ (Ne.symm hxF), write_same, and_one]
  · rw [write_other _ _ _ _ hxF, Nat.shiftRight_eq_div_pow]
  · rw [write_other _ _ _ _ (Ne.symm hxF), write_same, top_bit _ hv]
  · rw [write_other _ _ _ _ hxF, Nat.shiftLeft_eq, Nat.mul_comm]

/-- C3 amended at `shiftState 0x8306`: register 3 holds `0x85`. -/
theorem shift_flag_extraction_witness :
    (shiftState 0x8306).WF ∧ opVx (shiftState 0x8306).opcode = 3 ∧ (3 : Nat) ≠ 15 ∧
    (∃ s', OP_8xy6 (shiftState 0x8306) = some s' ∧
      s'.cpu_registers 15 = (shiftState 0x8306).cpu_registers 3 % 2 ∧
      s'.cpu_registers 3 = (shiftState 0x8306).cpu_registers 3 / 2) ∧
    (∃ s', OP_8xyE (shiftState 0x8306) = some s' ∧
      s'.cpu_registers 15 = (shiftState 0x8306).cpu_registers 3 / 128 ∧
      s'.cpu_registers 3 = (2 * (shiftState 0x8306).cpu_registers 3) % 256) :=
  ⟨shiftState_WF _ (by decide), by decide, by decide,
    shift_flag_extraction (shiftState 0x8306) 3 (shiftState_WF _ (by decide)) (by decide)
      (by decide)⟩

theorem Cycle_call (s : Chip8) (e : TableEntry) (hpc : s.program_counter + 1 < 4096)
    (he : table[opFamily (fetch s)]? = some e) :
    Cycle s = (e.call (fetched s)).map tickTimers := by
  have h : table[opFamily (fetched s).opcode]? = some e := he
  simp only [Cycle, hpc, if_true, h]

theorem Table0_call (s : Chip8) (f : Chip8Func) (h : table0[opNibble s.opcode]? = some f) :
    Table0 s = f.call s := by
  simp only [Table0, h]

theorem Table8_call (s : Chip8) (f : Chip8Func) (h : table8[opNibble s.opcode]? = some f) :
    Table8 s = f.call s := by
  simp only [Table8, h]

theorem TableE_call (s : Chip8) (f : Chip8Func) (h : tableE[opNibble s.opcode]? = some f) :
    TableE s = f.call s := by
  simp only [TableE, h]

theorem TableF_call (s : Chip8) (f : Chip8Func) (h : tableF[opByte s.opcode]? = some f) :
    TableF s = f.call s := by
  simp only [TableF, h]

theorem nibble_of_byte (w b : Nat) (h : opByte w = b) : opNibble w = b &&& 0xF := by
  have h1 : opNibble w = opByte w &&& 0xF := by
    simp only [opNibble, opByte]
    rw [Nat.and_assoc]
    rfl
  rw [h1, h]

theorem skip_pc (p : Nat) (hpc : p + 1 < 4096) : ((p + 2) % 65536 + 2) % 65536 = p + 4 := by
  omega

theorem next_pc (p : Nat) (hpc : p + 1 < 4096) : (p + 2) % 65536 = p + 2 := by
  omega

theorem skip_taken (s : Chip8) (p : Nat) (e : TableEntry) (cond : Prop) [Decidable cond]
    (hp : s.program_counter = p) (hpc : p + 1 < 4096)
    (he : table[opFamily (fetch s)]? = some e)
    (hc : e.call (fetched s) = if cond
      then some { fetched s with program_counter := ((fetched s).program_counter + 2) % 65536 }
      else some (fetched s)) :
    SkipsWhen s p cond := by
  subst hp
  unfold SkipsWhen
  rw [Cycle_call s e hpc he, hc]
  split
  · exact ⟨_, rfl, by simp [tickTimers, fetched, skip_pc _ hpc], fun _ => rfl⟩
  · exact ⟨_, rfl, by simp [tickTimers, fetched, next_pc _ hpc], fun _ => rfl⟩

/-- C4. Skip semantics at cycle level: from program counter `p` with
`p + 1 < 4096`, a cycle whose fetched word is `3xkk`, `4xkk`, `5xy0`, `9xy0`,
`Ex9E` or `ExA1` (the key skips with the value of Vx below 16) ends with the
program counter at `p + 4` when the condition holds on the state before the
cycle and at `p + 2` otherwise, and changes no register. -/
theorem skip_semantics (s : Chip8) (p : Nat) (hp : s.program_counter = p) (hpc : p + 1 < 4096) :
    (opFamily (fetch s) = 3 →
      SkipsWhen s p (s.cpu_registers (opVx (fetch s)) = opByte (fetch s))) ∧
    (opFamily (fetch s) = 4 →
      SkipsWhen s p (s.cpu_registers (opVx (fetch s)) ≠ opByte (fetch s))) ∧
    (opFamily (fetch s) = 5 → opNibble (fetch s) = 0 →
      SkipsWhen s p (s.cpu_registers (opVx (fetch s)) = s.cpu_registers (opVy (fetch s)))) ∧
    (opFamily (fetch s) = 9 → opNibble (fetch s) = 0 →
      SkipsWhen s p (s.cpu_registers (opVx (fetch s)) ≠ s.cpu_registers (opVy (fetch s)))) ∧
    (opFamily (fetch s) = 0xE → opByte (fetch s) = 0x9E →
      s.cpu_registers (opVx (fetch s)) < 16 →
      SkipsWhen s p (s.keypad (s.cpu_registers (opVx (fetch s))) ≠ 0)) ∧
    (opFamily (fetch s) = 0xE → opByte (fetch s) = 0xA1 →
      s.cpu_registers (opVx (fetch s)) < 16 →
      SkipsWhen s p (s.keypad (s.cpu_registers (opVx (fetch s))) = 0)) := by
  refine ⟨?_, ?_, ?_, ?_, ?_, ?_⟩
  · intro hf
    exact skip_taken s p (.op .OP_3xkk) _ hp hpc (by rw [hf]; rfl) rfl
  · intro hf
    exact skip_taken s p (.op .OP_4xkk) _ hp hpc (by rw [hf]; rfl) rfl
  · intro hf _
    exact skip_taken s p (.op .OP_5xy0) _ hp hpc (by rw [hf]; rfl) rfl
  · intro hf _
    exact skip_taken s p (.op .OP_9xy0) _ hp hpc (by rw [hf]; rfl) rfl
  · intro hf hb hk
    have hn : opNibble (fetched s).opcode = 0xE := nibble_of_byte _ _ hb
    have hk1 : (fetched s).cpu_registers (opVx (fetched s).opcode) < 16 := hk
    refine skip_taken s p .TableE _ hp hpc (by rw [hf]; rfl) ?_
    show TableE (fetched s) = _
    rw [TableE_call _ .OP_Ex9E (by rw [hn]; rfl)]
    show OP_Ex9E (fetched s) = _
    simp only [OP_Ex9E, hk1, if_true]
    rfl
  · intro hf hb hk
    have hn : opNibble (fetched s).opcode = 0x1 := nibble_of_byte _ _ hb
    have hk1 : (fetched s).cpu_registers (opVx (fetched s).opcode) < 16 := hk
    refine skip_taken s p .TableE _ hp hpc (by rw [hf]; rfl) ?_
    show TableE (fetched s) = _
    rw [TableE_call _ .OP_ExA1 (by rw [hn]; rfl)]
    show OP_ExA1 (fetched s) = _
    simp only [OP_ExA1, hk1, if_true]
    rfl

/-- C4 at six machines, one per skip instruction: `3107`, `4307`, `5120`, `9130`,
`E19E`, `E3A1`, each with its condition's hypotheses discharged. -/
theorem skip_semantics_witness :
    (skipState 0x31 0x07).program_counter = 0x200 ∧ 0x200 + 1 < 4096 ∧
    SkipsWhen (skipState 0x31 0x07) 0x200
      ((skipState 0x31 0x07).cpu_registers (opVx (fetch (skipState 0x31 0x07))) = opByte (fetch (skipState 0x31 0x07))) ∧
    SkipsWhen (skipState 0x43 0x07) 0x200
      ((skipState 0x43 0x07).cpu_registers (opVx (fetch (skipState 0x43 0x07))) ≠ opByte (fetch (skipState 0x43 0x07))) ∧
    SkipsWhen (skipState 0x51 0x20) 0x200
      ((skipState 0x51 0x20).cpu_registers (opVx (fetch (skipState 0x51 0x20))) = (skipState 0x51 0x20).cpu_registers (opVy (fetch (skipState 0x51 0x20)))) ∧
    SkipsWhen (skipState 0x91 0x30) 0x200
      ((skipState 0x91 0x30).cpu_registers (opVx (fetch (skipState 0x91 0x30))) ≠ (skipState 0x91 0x30).cpu_registers (opVy (fetch (skipState 0x91 0x30)))) ∧
    SkipsWhen (skipState 0xE1 0x9E) 0x200
      ((skipState 0xE1 0x9E).keypad ((skipState 0xE1 0x9E).cpu_registers (opVx (fetch (skipState 0xE1 0x9E)))) ≠ 0) ∧
    SkipsWhen (skipState 0xE3 0xA1) 0x200
      ((skipState 0xE3 0xA1).keypad ((skipState 0xE3 0xA1).cpu_registers (opVx (fetch (skipState 0xE3 0xA1)))) = 0) :=
  ⟨rfl, by decide,
    (skip_semantics (skipState 0x31 0x07) 0x200 rfl (by decide)).1 (by decide),
    (skip_semantics (skipState 0x43 0x07) 0x200 rfl (by decide)).2.1 (by decide),
    (skip_semantics (skipState 0x51 0x20) 0x200 rfl (by decide)).2.2.1 (by decide) (by decide),
    (skip_semantics (skipState 0x91 0x30) 0x200 rfl (by decide)).2.2.2.1 (by decide) (by decide),
    (skip_semantics (skipState 0xE1 0x9E) 0x200 rfl (by decide)).2.2.2.2.1 (by decide) (by decide) (by decide),
    (skip_semantics (skipState 0xE3 0xA1) 0x200 rfl (by decide)).2.2.2.2.2 (by decide) (by decide) (by decide)⟩

/-- A loop whose every turn succeeds and carries the invariant from `i` to
`i + 1` succeeds and ends in the invariant at `n`. -/
theorem forLoop_inv (P : Nat → Chip8 → Prop) (body : Nat → Chip8 → Option Chip8) (n : Nat)
    (s : Chip8) (h0 : P 0 s)
    (hstep : ∀ i st, i < n → P i st → ∃ st', body i st = some st' ∧ P (i + 1) st') :
    ∃ s', forLoop n body s = some s' ∧ P n s' := by
  induction n with
  | zero => exact ⟨s, rfl, h0⟩
  | succ n ih =>
    obtain ⟨s1, h1, hP⟩ := ih (fun i st hi => hstep i st (Nat.lt_succ_of_lt hi))
    obtain ⟨s2, h2, hP2⟩ := hstep n s1 (Nat.lt_succ_self n) hP
    exact ⟨s2, by simp only [forLoop, h1, Option.some_bind, h2], hP2⟩

theorem cellOf_inj (xPos yPos k k' : Nat) (h : cellOf xPos yPos k = cellOf xPos yPos k') :
    k = k' := by
  unfold cellOf at h
  omega

theorem Hit_succ (s : Chip8) (xPos yPos K i : Nat) :
    Hit s xPos yPos (K + 1) i ↔ Hit s xPos yPos K i ∨ (spriteBit s K ∧ cellOf xPos yPos K = i) := by
  constructor
  · rintro ⟨k, hk, hb, hc⟩
    rcases Nat.lt_succ_iff_lt_or_eq.mp hk with h | h
    · exact Or.inl ⟨k, h, hb, hc⟩
    · subst h
      exact Or.inr ⟨hb, hc⟩
  · rintro (⟨k, hk, hb, hc⟩ | ⟨hb, hc⟩)
    · exact ⟨k, Nat.lt_succ_of_lt hk, hb, hc⟩
    · exact ⟨K, Nat.lt_succ_self K, hb, hc⟩

theorem Collides_succ (s : Chip8) (xPos yPos K : Nat) :
    Collides s xPos yPos (K + 1) ↔
      Collides s xPos yPos K ∨ (spriteBit s K ∧ s.video (cellOf xPos yPos K) = 0xFFFFFFFF) := by
  constructor
  · rintro ⟨k, hk, hb, hc⟩
    rcases Nat.lt_succ_iff_lt_or_eq.mp hk with h | h
    · exact Or.inl ⟨k, h, hb, hc⟩
    · subst h
      exact Or.inr ⟨hb, hc⟩
  · rintro (⟨k, hk, hb, hc⟩ | ⟨hb, hc⟩)
    · exact ⟨k, Nat.lt_succ_of_lt hk, hb, hc⟩
    · exact ⟨K, Nat.lt_succ_self K, hb, hc⟩

theorem not_Hit_self (s : Chip8) (xPos yPos K : Nat) : ¬ Hit s xPos yPos K (cellOf xPos yPos K) := by
  rintro ⟨k, hk, _, hc⟩
  have := cellOf_inj _ _ _ _ hc
  omega

theorem drawPixel_step (s0 st : Chip8) (xPos yPos row col : Nat) (hcol : col < 8)
    (hidx : (yPos + row) * 64 + (xPos + col) < 2048)
    (inv : DrawInv s0 xPos yPos (row * 8 + col) st) :
    ∃ st', drawPixel (s0.memory (s0.index_register + row)) xPos yPos row col st = some st' ∧
      DrawInv s0 xPos yPos (row * 8 + col + 1) st' := by
  have hdiv : (row * 8 + col) / 8 = row := by omega
  have hmod : (row * 8 + col) % 8 = col := by omega
  have hcell : cellOf xPos yPos (row * 8 + col) = (yPos + row) * 64 + (xPos + col) := by
    simp only [cellOf, hdiv, hmod]
  have hbit : spriteBit s0 (row * 8 + col) ↔
      s0.memory (s0.index_register + row) &&& (0x80 >>> col) ≠ 0 := by
    simp only [spriteBit, hdiv, hmod]
  have hcur : st.video ((yPos + row) * 64 + (xPos + col))
      = s0.video ((yPos + row) * 64 + (xPos + col)) := by
    rw [← hcell]
    exact inv.miss _ (not_Hit_self _ _ _ _)
  simp only [drawPixel]
  by_cases hb : s0.memory (s0.index_register + row) &&& (0x80 >>> col) ≠ 0
  · rw [if_pos hb, if_pos hidx]
    simp only [hcur]
    refine ⟨_, rfl, ?_, ?_, ?_, ?_, ?_, ?_⟩
    · exact inv.frame
    · intro i hi
      simp only []
      split
      · rw [write_other _ _ _ _ hi]
        exact inv.regs i hi
      · exact inv.regs i hi
    · intro i hi
      simp only []
      rcases (Hit_succ _ _ _ _ _).mp hi with h | ⟨_, h⟩
      · have hne : i ≠ (yPos + row) * 64 + (xPos + col) := by
          intro he
          rw [← hcell] at he
          exact not_Hit_self _ _ _ _ (he ▸ h)
        rw [write_other _ _ _ _ hne]
        exact inv.hit i h
      · rw [hcell] at h
        rw [← h, write_same]
    · intro i hi
      simp only []
      have h1 : ¬ Hit s0 xPos yPos (row * 8 + col) i := fun h => hi ((Hit_succ _ _ _ _ _).mpr (Or.inl h))
      have hne : i ≠ (yPos + row) * 64 + (xPos + col) := by
        intro he
        exact hi ((Hit_succ _ _ _ _ _).mpr (Or.inr ⟨hbit.mpr hb, by rw [hcell, he]⟩))
      rw [write_other _ _ _ _ hne]
      exact inv.miss i h1
    · intro hc
      simp only []
      split
      · exact write_same _ _ _
      · rename_i hne
        rcases (Collides_succ _ _ _ _).mp hc with h | ⟨_, h⟩
        · exact inv.coll h
        · rw [hcell] at h
          exact absurd h hne
    · intro hc
      simp only []
      have h1 : ¬ Collides s0 xPos yPos (row * 8 + col) :=
        fun h => hc ((Collides_succ _ _ _ _).mpr (Or.inl h))
      split
      · rename_i he
        exact absurd ((Collides_succ _ _ _ _).mpr (Or.inr ⟨hbit.mpr hb, by rw [hcell]; exact he⟩)) hc
      · exact inv.free h1
  · rw [if_neg hb]
    refine ⟨st, rfl, inv.frame, inv.regs, ?_, ?_, ?_, ?_⟩
    · intro i hi
      rcases (Hit_succ _ _ _ _ _).mp hi with h | ⟨h, _⟩
      · exact inv.hit i h
      · exact absurd (hbit.mp h) hb
    · intro i hi
      exact inv.miss i (fun h => hi ((Hit_succ _ _ _ _ _).mpr (Or.inl h)))
    · intro hc
      rcases (Collides_succ _ _ _ _).mp hc with h | ⟨h, _⟩
      · exact inv.coll h
      · exact absurd (hbit.mp h) hb
    · intro hc
      exact inv.free (fun h => hc ((Collides_succ _ _ _ _).mpr (Or.inl h)))

theorem DrawInv.memory_eq {s0 st : Chip8} {xPos yPos K : Nat} (inv : DrawInv s0 xPos yPos K st) :
    st.memory = s0.memory :=
  congrArg (fun t => t.1) inv.frame

theorem DrawInv.index_eq {s0 st : Chip8} {xPos yPos K : Nat} (inv : DrawInv s0 xPos yPos K st) :
    st.index_register = s0.index_register :=
  congrArg (fun t => t.2.1) inv.frame

theorem drawRow_step (s0 st : Chip8) (xPos yPos row : Nat)
    (hmem : s0.index_register + row < 4096)
    (hidx : ∀ col, col < 8 → (yPos + row) * 64 + (xPos + col) < 2048)
    (inv : DrawInv s0 xPos yPos (row * 8) st) :
    ∃ st', drawRow xPos yPos row st = some st' ∧ DrawInv s0 xPos yPos ((row + 1) * 8) st' := by
  have hm : st.index_register + row < 4096 := by rw [inv.index_eq]; exact hmem
  simp only [drawRow, hm, if_true]
  rw [inv.index_eq, inv.memory_eq]
  have h := forLoop_inv (fun c t => DrawInv s0 xPos yPos (row * 8 + c) t)
    (drawPixel (s0.memory (s0.index_register + row)) xPos yPos row) 8 st inv
    (fun col t hcol hinv => drawPixel_step s0 t xPos yPos row col hcol (hidx col hcol) hinv)
  have he : (row + 1) * 8 = row * 8 + 8 := by omega
  rw [he]
  exact h

/-- What `OP_Dxyn` does when every access is in range: the handler
completes, and its result is the draw invariant after all `8 * n` turns,
taken from the state with register 15 cleared. -/
theorem OP_Dxyn_inv (s : Chip8)
    (hmem : s.index_register + opNibble s.opcode ≤ 4096)
    (hvid : ∀ row col, row < opNibble s.opcode → col < 8 →
      (s.cpu_registers (opVy s.opcode) % 32 + row) * 64
        + (s.cpu_registers (opVx s.opcode) % 64 + col) < 2048) :
    ∃ s', OP_Dxyn s = some s' ∧
      DrawInv { s with cpu_registers := write s.cpu_registers 0xF 0 }
        (s.cpu_registers (opVx s.opcode) % 64) (s.cpu_registers (opVy s.opcode) % 32)
        (opNibble s.opcode * 8) s' := by
  unfold OP_Dxyn
  refine forLoop_inv (fun r t => DrawInv { s with cpu_registers := write s.cpu_registers 0xF 0 }
    (s.cpu_registers (opVx s.opcode) % 64) (s.cpu_registers (opVy s.opcode) % 32) (r * 8) t)
    _ _ _ ?_ ?_
  · refine ⟨rfl, fun _ _ => rfl, ?_, fun _ _ => rfl, ?_,
      fun _ => (write_same _ _ _ : write s.cpu_registers 0xF 0 0xF = 0)⟩
    · rintro i ⟨k, hk, _⟩
      omega
    · rintro ⟨k, hk, _⟩
      omega
  · intro row st hrow hinv
    exact drawRow_step _ st _ _ row (by show s.index_register + row < 4096; omega)
      (fun col hcol => hvid row col hrow hcol) hinv

theorem DrawInv.opcode_eq {s0 st : Chip8} {xPos yPos K : Nat} (inv : DrawInv s0 xPos yPos K st) :
    st.opcode = s0.opcode :=
  congrArg (fun t => t.2.2.2.2.2.2.2.2.1) inv.frame

theorem spriteBit_congr (s t : Chip8) (k : Nat) (hm : s.memory = t.memory)
    (hi : s.index_register = t.index_register) : spriteBit s k ↔ spriteBit t k := by
  simp only [spriteBit, hm, hi]

theorem xor_twice (a m : Nat) : (a ^^^ m) ^^^ m = a := by
  rw [Nat.xor_assoc, Nat.xor_self, Nat.xor_zero]

/-- C5. Draw is an involution on the framebuffer: with the sprite bytes and
every addressed cell in range (`index_register + n ≤ 4096`, every index
`(yPos + row) * 64 + xPos + col` below 2048), `OP_Dxyn` completes without
changing memory or the index register; a second `OP_Dxyn` that reads the same
coordinates (it does whenever neither `x` nor `y` is 15) completes, leaves
every framebuffer cell at its value before the first draw, and ends with
register 15 equal to 1 whenever the first draw turned an off cell on. -/
theorem draw_twice (s : Chip8) (x y n : Nat)
    (hx : opVx s.opcode = x) (hy : opVy s.opcode = y) (hn : opNibble s.opcode = n)
    (hmem : s.index_register + n ≤ 4096)
    (hvid : ∀ row col, row < n → col < 8 →
      (s.cpu_registers y % 32 + row) * 64 + (s.cpu_registers x % 64 + col) < 2048) :
    ∃ s1, OP_Dxyn s = some s1 ∧
      s1.memory = s.memory ∧ s1.index_register = s.index_register ∧
      (x ≠ 15 → y ≠ 15 →
        s1.cpu_registers x = s.cpu_registers x ∧ s1.cpu_registers y = s.cpu_registers y) ∧
      (s1.cpu_registers x % 64 = s.cpu_registers x % 64 →
        s1.cpu_registers y % 32 = s.cpu_registers y % 32 →
        ∃ s2, OP_Dxyn s1 = some s2 ∧
          (∀ i, i < 2048 → s2.video i = s.video i) ∧
          ((∃ i, i < 2048 ∧ s.video i = 0 ∧ s1.video i ≠ 0) → s2.cpu_registers 15 = 1)) := by
  subst hx hy hn
  obtain ⟨s1, h1, inv1⟩ := OP_Dxyn_inv s hmem hvid
  have hop : s1.opcode = s.opcode := inv1.opcode_eq
  have hmm : s1.memory = s.memory := inv1.memory_eq
  have hii : s1.index_register = s.index_register := inv1.index_eq
  refine ⟨s1, h1, hmm, hii, fun hxF hyF =>
    ⟨(inv1.regs _ hxF).trans (write_other _ _ _ _ hxF),
      (inv1.regs _ hyF).trans (write_other _ _ _ _ hyF)⟩, ?_⟩
  intro hcx hcy
  have hmem2 : s1.index_register + opNibble s1.opcode ≤ 4096 := by rw [hii, hop]; exact hmem
  have hvid2 : ∀ row col, row < opNibble s1.opcode → col < 8 →
      (s1.cpu_registers (opVy s1.opcode) % 32 + row) * 64
        + (s1.cpu_registers (opVx s1.opcode) % 64 + col) < 2048 := by
    rw [hop, hcx, hcy]
    exact hvid
  obtain ⟨s2, h2, inv2⟩ := OP_Dxyn_inv s1 hmem2 hvid2
  rw [hop, hcx, hcy] at inv2
  have hbit : ∀ k, spriteBit { s1 with cpu_registers := write s1.cpu_registers 0xF 0 } k ↔
      spriteBit { s with cpu_registers := write s.cpu_registers 0xF 0 } k :=
    fun k => spriteBit_congr _ _ k hmm hii
  have hhit : ∀ i, Hit { s1 with cpu_registers := write s1.cpu_registers 0xF 0 }
        (s.cpu_registers (opVx s.opcode) % 64) (s.cpu_registers (opVy s.opcode) % 32)
        (opNibble s.opcode * 8) i ↔
      Hit { s with cpu_registers := write s.cpu_registers 0xF 0 }
        (s.cpu_registers (opVx s.opcode) % 64) (s.cpu_registers (opVy s.opcode) % 32)
        (opNibble s.opcode * 8) i := by
    intro i
    constructor
    · rintro ⟨k, hk, hb, hc⟩
      exact ⟨k, hk, (hbit k).mp hb, hc⟩
    · rintro ⟨k, hk, hb, hc⟩
      exact ⟨k, hk, (hbit k).mpr hb, hc⟩
  refine ⟨s2, h2, ?_, ?_⟩
  · intro i _
    by_cases hi : Hit { s with cpu_registers := write s.cpu_registers 0xF 0 }
        (s.cpu_registers (opVx s.opcode) % 64) (s.cpu_registers (opVy s.opcode) % 32)
        (opNibble s.opcode * 8) i
    · rw [inv2.hit i ((hhit i).mpr hi)]
      show s1.video i ^^^ 0xFFFFFFFF = s.video i
      rw [inv1.hit i hi]
      exact xor_twice _ _
    · rw [inv2.miss i (fun h => hi ((hhit i).mp h))]
      exact inv1.miss i hi
  · rintro ⟨i, _, hoff, hon⟩
    have hi : Hit { s with cpu_registers := write s.cpu_registers 0xF 0 }
        (s.cpu_registers (opVx s.opcode) % 64) (s.cpu_registers (opVy s.opcode) % 32)
        (opNibble s.opcode * 8) i := by
      by_contra hno
      exact hon ((inv1.miss i hno).trans hoff)
    have hval : s1.video i = 0xFFFFFFFF := by
      rw [inv1.hit i hi]
      show s.video i ^^^ 0xFFFFFFFF = 0xFFFFFFFF
      rw [hoff, Nat.zero_xor]
    obtain ⟨k, hk, hb, hc⟩ := hi
    exact inv2.coll ⟨k, hk, (hbit k).mpr hb, by rw [hc]; exact hval⟩

/-- C5 at `drawState`: the glyph `0` drawn twice at the top left corner. -/
theorem draw_twice_witness :
    opVx drawState.opcode = 0 ∧ opVy drawState.opcode = 1 ∧ opNibble drawState.opcode = 5 ∧
    drawState.index_register + 5 ≤ 4096 ∧
    (∀ row col, row < 5 → col < 8 →
      (drawState.cpu_registers 1 % 32 + row) * 64 + (drawState.cpu_registers 0 % 64 + col)
        < 2048) ∧
    ∃ s1, OP_Dxyn drawState = some s1 ∧
      s1.memory = drawState.memory ∧ s1.index_register = drawState.index_register ∧
      ((0 : Nat) ≠ 15 → (1 : Nat) ≠ 15 →
        s1.cpu_registers 0 = drawState.cpu_registers 0 ∧
        s1.cpu_registers 1 = drawState.cpu_registers 1) ∧
      (s1.cpu_registers 0 % 64 = drawState.cpu_registers 0 % 64 →
        s1.cpu_registers 1 % 32 = drawState.cpu_registers 1 % 32 →
        ∃ s2, OP_Dxyn s1 = some s2 ∧
          (∀ i, i < 2048 → s2.video i = drawState.video i) ∧
          ((∃ i, i < 2048 ∧ drawState.video i = 0 ∧ s1.video i ≠ 0) →
            s2.cpu_registers 15 = 1)) :=
  have hv : ∀ row col, row < 5 → col < 8 →
      (drawState.cpu_registers 1 % 32 + row) * 64 + (drawState.cpu_registers 0 % 64 + col)
        < 2048 := by
    intro row col h1 h2
    have e1 : drawState.cpu_registers 1 % 32 = 0 := by decide
    have e0 : drawState.cpu_registers 0 % 64 = 0 := by decide
    rw [e1, e0]
    omega
  ⟨by decide, by decide, by decide, by decide, hv,
    draw_twice drawState 0 1 5 (by decide) (by decide) (by decide) (by decide) hv⟩

theorem bcdState_WF : bcdState.WF :=
  have h := init_WF (fun _ => 0)
  ⟨by intro i _; simp only [bcdState, write]; split_ifs <;> omega, h.mem_lt, by decide,
    by decide, h.stack_lt, by decide, by decide, by decide, h.keypad_lt, h.video_lt, by decide⟩

/-- C6. BCD round trip: with `index_register + 2 < 4096` and `v` the value
of register `x`, `OP_Fx33` completes and the cells `h`, `t`, `o` at
`index_register`, `+1`, `+2` satisfy `100 * h + 10 * t + o = v`, each at most
9; no other memory cell, no register and not the index register changes. -/
theorem bcd_round_trip (s : Chip8) (x : Nat) (hwf : s.WF) (hx : opVx s.opcode = x)
    (hI : s.index_register + 2 < 4096) :
    ∃ s', OP_Fx33 s = some s' ∧
      100 * s'.memory s.index_register + 10 * s'.memory (s.index_register + 1)
        + s'.memory (s.index_register + 2) = s.cpu_registers x ∧
      s'.memory s.index_register ≤ 9 ∧ s'.memory (s.index_register + 1) ≤ 9 ∧
      s'.memory (s.index_register + 2) ≤ 9 ∧
      (∀ a, a ≠ s.index_register → a ≠ s.index_register + 1 → a ≠ s.index_register + 2 →
        s'.memory a = s.memory a) ∧
      (∀ i, s'.cpu_registers i = s.cpu_registers i) ∧
      s'.index_register = s.index_register := by
  have hv := hwf.reg_lt x (hx ▸ opVx_lt _)
  have h1 : s.index_register + 1 < 4096 := by omega
  have h0 : s.index_register < 4096 := by omega
  have hrun : OP_Fx33 s = some
      { s with
        memory := write (write (write s.memory (s.index_register + 2) (s.cpu_registers x % 10))
                    (s.index_register + 1) (s.cpu_registers x / 10 % 10)) s.index_register
                    (s.cpu_registers x / 10 / 10 % 10) } := by
    simp only [OP_Fx33, store, hI, h1, h0, if_true, Option.some_bind, hx]
  refine ⟨_, hrun, ?_⟩
  have e0 : write (write (write s.memory (s.index_register + 2) (s.cpu_registers x % 10))
      (s.index_register + 1) (s.cpu_registers x / 10 % 10)) s.index_register
      (s.cpu_registers x / 10 / 10 % 10) s.index_register = s.cpu_registers x / 10 / 10 % 10 :=
    write_same _ _ _
  have e1 : write (write (write s.memory (s.index_register + 2) (s.cpu_registers x % 10))
      (s.index_register + 1) (s.cpu_registers x / 10 % 10)) s.index_register
      (s.cpu_registers x / 10 / 10 % 10) (s.index_register + 1) = s.cpu_registers x / 10 % 10 := by
    rw [write_other _ _ _ _ (by omega), write_same]
  have e2 : write (write (write s.memory (s.index_register + 2) (s.cpu_registers x % 10))
      (s.index_register + 1) (s.cpu_registers x / 10 % 10)) s.index_register
      (s.cpu_registers x / 10 / 10 % 10) (s.index_register + 2) = s.cpu_registers x % 10 := by
    rw [write_other _ _ _ _ (by omega), write_other _ _ _ _ (by omega), write_same]
  refine ⟨?_, ?_, ?_, ?_, ?_, fun _ => rfl, rfl⟩
  · simp only [e0, e1, e2]
    omega
  · simp only [e0]
    omega
  · simp only [e1]
    omega
  · simp only [e2]
    omega
  · intro a ha0 ha1 ha2
    simp only []
    rw [write_other _ _ _ _ ha0, write_other _ _ _ _ ha1, write_other _ _ _ _ ha2]

/-- C6 at `bcdState`: `F433` with V4 = 234. -/
theorem bcd_round_trip_witness :
    bcdState.WF ∧ opVx bcdState.opcode = 4 ∧ bcdState.index_register + 2 < 4096 ∧
    ∃ s', OP_Fx33 bcdState = some s' ∧
      100 * s'.memory bcdState.index_register + 10 * s'.memory (bcdState.index_register + 1)
        + s'.memory (bcdState.index_register + 2) = bcdState.cpu_registers 4 ∧
      s'.memory bcdState.index_register ≤ 9 ∧ s'.memory (bcdState.index_register + 1) ≤ 9 ∧
      s'.memory (bcdState.index_register + 2) ≤ 9 ∧
      (∀ a, a ≠ bcdState.index_register → a ≠ bcdState.index_register + 1 →
        a ≠ bcdState.index_register + 2 → s'.memory a = bcdState.memory a) ∧
      (∀ i, s'.cpu_registers i = bcdState.cpu_registers i) ∧
      s'.index_register = bcdState.index_register :=
  ⟨bcdState_WF, by decide, by decide,
    bcd_round_trip bcdState 4 bcdState_WF (by decide) (by decide)⟩

/-- A field that no turn of a loop changes is not changed by the loop. -/
theorem forLoop_frame {α : Type} (proj : Chip8 → α) (body : Nat → Chip8 → Option Chip8)
    (hb : ∀ i st st', body i st = some st' → proj st' = proj st) :
    ∀ n s s', forLoop n body s = some s' → proj s' = proj s := by
  intro n
  induction n with
  | zero =>
    intro s s' h
    cases h
    rfl
  | succ n ih =>
    intro s s' h
    simp only [forLoop] at h
    obtain ⟨s1, h1, h2⟩ := Option.bind_eq_some.mp h
    rw [hb n s1 s' h2, ih s s1 h1]

theorem store_frame {α : Type} (proj : Chip8 → α)
    (hp : ∀ (st : Chip8) (m : Nat → Nat), proj { st with memory := m } = proj st)
    (a v : Nat) (s s' : Chip8) (h : store a v s = some s') : proj s' = proj s := by
  simp only [store] at h
  split at h
  · cases h
    exact hp _ _
  · cases h

theorem drawPixel_frame {α : Type} (proj : Chip8 → α)
    (hp : ∀ (st : Chip8) (r v : Nat → Nat), proj { st with cpu_registers := r, video := v } = proj st)
    (b xPos yPos row col : Nat) (s s' : Chip8) (h : drawPixel b xPos yPos row col s = some s') :
    proj s' = proj s := by
  simp only [drawPixel] at h
  split at h
  · split at h
    · cases h
      exact hp _ _ _
    · cases h
  · cases h
    rfl

theorem OP_Dxyn_frame {α : Type} (proj : Chip8 → α)
    (hp : ∀ (st : Chip8) (r v : Nat → Nat), proj { st with cpu_registers := r, video := v } = proj st)
    (s s' : Chip8) (h : OP_Dxyn s = some s') : proj s' = proj s := by
  simp only [OP_Dxyn] at h
  have h1 := forLoop_frame proj _ (fun row st st' hr => by
    simp only [drawRow] at hr
    split at hr
    · exact forLoop_frame proj _ (fun col t t' hc => drawPixel_frame proj hp _ _ _ _ _ t t' hc)
        _ _ _ hr
    · cases hr) _ _ _ h
  rw [h1]
  exact hp s _ s.video

theorem call_delay_timer (f : Chip8Func) (s s' : Chip8) (hf : f ≠ .OP_Fx15) (h : f.call s = some s') :
    s'.delay_timer = s.delay_timer := by
  cases f
  case OP_Fx15 => exact absurd rfl hf
  case OP_Dxyn => exact OP_Dxyn_frame (fun t => t.delay_timer) (fun _ _ _ => rfl) s s' h
  case OP_Fx33 =>
    simp only [Chip8Func.call, OP_Fx33] at h
    obtain ⟨s1, h1, h⟩ := Option.bind_eq_some.mp h
    obtain ⟨s2, h2, h3⟩ := Option.bind_eq_some.mp h
    rw [store_frame (fun t => t.delay_timer) (fun _ _ => rfl) _ _ _ _ h3,
      store_frame (fun t => t.delay_timer) (fun _ _ => rfl) _ _ _ _ h2,
      store_frame (fun t => t.delay_timer) (fun _ _ => rfl) _ _ _ _ h1]
  case OP_Fx55 =>
    exact forLoop_frame (fun t => t.delay_timer) _
      (fun i st st' hb => store_frame (fun t => t.delay_timer) (fun _ _ => rfl) _ _ _ _ hb) _ _ _ h
  case OP_Fx65 =>
    refine forLoop_frame (fun t => t.delay_timer) _ (fun i st st' hb => ?_) _ _ _ h
    split at hb
    · cases hb
      rfl
    · cases hb
  all_goals
    simp only [Chip8Func.call, OP_NULL, OP_00E0, OP_00EE, OP_1nnn, OP_2nnn, OP_3xkk, OP_4xkk,
      OP_5xy0, OP_6xkk, OP_7xkk, OP_8xy0, OP_8xy1, OP_8xy2, OP_8xy3, OP_8xy4, OP_8xy5, OP_8xy6,
      OP_8xy7, OP_8xyE, OP_9xy0, OP_Annn, OP_Bnnn, OP_Cxkk, OP_Ex9E, OP_ExA1, OP_Fx07, OP_Fx0A,
      OP_Fx15, OP_Fx18, OP_Fx1E, OP_Fx29] at h
    repeat' split at h
    all_goals first
      | (cases h; rfl)
      | cases h

theorem call_sound_timer (f : Chip8Func) (s s' : Chip8) (hf : f ≠ .OP_Fx18) (h : f.call s = some s') :
    s'.sound_timer = s.sound_timer := by
  cases f
  case OP_Fx18 => exact absurd rfl hf
  case OP_Dxyn => exact OP_Dxyn_frame (fun t => t.sound_timer) (fun _ _ _ => rfl) s s' h
  case OP_Fx33 =>
    simp only [Chip8Func.call, OP_Fx33] at h
    obtain ⟨s1, h1, h⟩ := Option.bind_eq_some.mp h
    obtain ⟨s2, h2, h3⟩ := Option.bind_eq_some.mp h
    rw [store_frame (fun t => t.sound_timer) (fun _ _ => rfl) _ _ _ _ h3,
      store_frame (fun t => t.sound_timer) (fun _ _ => rfl) _ _ _ _ h2,
      store_frame (fun t => t.sound_timer) (fun _ _ => rfl) _ _ _ _ h1]
  case OP_Fx55 =>
    exact forLoop_frame (fun t => t.sound_timer) _
      (fun i st st' hb => store_frame (fun t => t.sound_timer) (fun _ _ => rfl) _ _ _ _ hb) _ _ _ h
  case OP_Fx65 =>
    refine forLoop_frame (fun t => t.sound_timer) _ (fun i st st' hb => ?_) _ _ _ h
    split at hb
    · cases hb
      rfl
    · cases hb
  all_goals
    simp only [Chip8Func.call, OP_NULL, OP_00E0, OP_00EE, OP_1nnn, OP_2nnn, OP_3xkk, OP_4xkk,
      OP_5xy0, OP_6xkk, OP_7xkk, OP_8xy0, OP_8xy1, OP_8xy2, OP_8xy3, OP_8xy4, OP_8xy5, OP_8xy6,
      OP_8xy7, OP_8xyE, OP_9xy0, OP_Annn, OP_Bnnn, OP_Cxkk, OP_Ex9E, OP_ExA1, OP_Fx07, OP_Fx0A,
      OP_Fx15, OP_Fx18, OP_Fx1E, OP_Fx29] at h
    repeat' split at h
    all_goals first
      | (cases h; rfl)
      | cases h

/-- `Cycle` runs the handler that `decode` selects for the fetched word. -/
theorem Cycle_decode (s : Chip8) (hpc : s.program_counter + 1 < 4096) :
    Cycle s = (decode (fetch s)).bind fun f => (f.call (fetched s)).map tickTimers := by
  have hop : (fetched s).opcode = fetch s := rfl
  simp only [Cycle, hpc, if_true, decode, hop]
  cases h : table[opFamily (fetch s)]? with
  | none => rfl
  | some e =>
    cases e with
    | op f => rfl
    | Table0 =>
      simp only [TableEntry.call, Table0, hop]
      cases table0[opNibble (fetch s)]? <;> rfl
    | Table8 =>
      simp only [TableEntry.call, Table8, hop]
      cases table8[opNibble (fetch s)]? <;> rfl
    | TableE =>
      simp only [TableEntry.call, TableE, hop]
      cases tableE[opNibble (fetch s)]? <;> rfl
    | TableF =>
      simp only [TableEntry.call, TableF, hop]
      cases tableF[opByte (fetch s)]? <;> rfl

/-- A cycle that completes ran a decoded handler on the fetched state and
then ticked the timers. -/
theorem Cycle_some (s s' : Chip8) (h : Cycle s = some s') :
    s.program_counter + 1 < 4096 ∧
    ∃ f s1, decode (fetch s) = some f ∧ f.call (fetched s) = some s1 ∧ s' = tickTimers s1 := by
  have hpc : s.program_counter + 1 < 4096 := by
    by_contra hn
    simp only [Cycle, hn, if_false] at h
    cases h
  rw [Cycle_decode s hpc] at h
  obtain ⟨f, hf, h1⟩ := Option.bind_eq_some.mp h
  obtain ⟨s1, h2, h3⟩ := Option.map_eq_some'.mp h1
  exact ⟨hpc, f, s1, hf, h2, h3.symm⟩

theorem Cycle_delay_timer (s t : Chip8) (h : Cycle s = some t)
    (hne : decode (fetch s) ≠ some .OP_Fx15) : t.delay_timer = s.delay_timer - 1 := by
  obtain ⟨_, f, s1, hf, hc, ht⟩ := Cycle_some s t h
  have h1 : s1.delay_timer = s.delay_timer :=
    call_delay_timer f (fetched s) s1 (fun e => hne (e ▸ hf)) hc
  subst ht
  simp only [tickTimers, h1]
  split <;> omega

theorem Cycle_sound_timer (s t : Chip8) (h : Cycle s = some t)
    (hne : decode (fetch s) ≠ some .OP_Fx18) : t.sound_timer = s.sound_timer - 1 := by
  obtain ⟨_, f, s1, hf, hc, ht⟩ := Cycle_some s t h
  have h1 : s1.sound_timer = s.sound_timer :=
    call_sound_timer f (fetched s) s1 (fun e => hne (e ▸ hf)) hc
  subst ht
  simp only [tickTimers, h1]
  split <;> omega

theorem avoids_succ (f : Chip8Func) (n : Nat) (s t : Chip8) (h : Cycle s = some t)
    (ha : avoids f (n + 1) s = true) : decode (fetch s) ≠ some f ∧ avoids f n t = true := by
  simp only [avoids, h, Bool.and_eq_true, decide_eq_true_eq] at ha
  exact ha

theorem cycles_delay_timer (n : Nat) : ∀ s s', cycles n s = some s' →
    avoids .OP_Fx15 n s = true → s'.delay_timer = s.delay_timer - n := by
  induction n with
  | zero =>
    intro s s' h _
    cases h
    rfl
  | succ n ih =>
    intro s s' h ha
    obtain ⟨t, ht, hrest⟩ := Option.bind_eq_some.mp h
    obtain ⟨hne, ha'⟩ := avoids_succ _ n s t ht ha
    rw [ih t s' hrest ha', Cycle_delay_timer s t ht hne]
    omega

theorem cycles_sound_timer (n : Nat) : ∀ s s', cycles n s = some s' →
    avoids .OP_Fx18 n s = true → s'.sound_timer = s.sound_timer - n := by
  induction n with
  | zero =>
    intro s s' h _
    cases h
    rfl
  | succ n ih =>
    intro s s' h ha
    obtain ⟨t, ht, hrest⟩ := Option.bind_eq_some.mp h
    obtain ⟨hne, ha'⟩ := avoids_succ _ n s t ht ha
    rw [ih t s' hrest ha', Cycle_sound_timer s t ht hne]
    omega

/-- C7. Timer decay: a cycle that completes and does not execute `OP_Fx15`
(`OP_Fx18`) leaves `delay_timer` (`sound_timer`) one lower when it was above
0 and at 0 when it was 0; after `n` such cycles in succession the timer
equals its start value less `n`, cut off at 0, so it is 0 from the cycle on
at which the start value is used up and never wraps. -/
theorem timer_decay (s s' : Chip8) (n : Nat) (hrun : cycles n s = some s') :
    (∀ t, Cycle s = some t →
      (decode (fetch s) ≠ some .OP_Fx15 →
        t.delay_timer = if s.delay_timer > 0 then s.delay_timer - 1 else 0) ∧
      (decode (fetch s) ≠ some .OP_Fx18 →
        t.sound_timer = if s.sound_timer > 0 then s.sound_timer - 1 else 0)) ∧
    (avoids .OP_Fx15 n s = true →
      s'.delay_timer = s.delay_timer - n ∧ (s.delay_timer ≤ n → s'.delay_timer = 0)) ∧
    (avoids .OP_Fx18 n s = true →
      s'.sound_timer = s.sound_timer - n ∧ (s.sound_timer ≤ n → s'.sound_timer = 0)) := by
  refine ⟨fun t ht => ⟨fun hne => ?_, fun hne => ?_⟩, fun ha => ?_, fun ha => ?_⟩
  · rw [Cycle_delay_timer s t ht hne]
    split <;> omega
  · rw [Cycle_sound_timer s t ht hne]
    split <;> omega
  · have h := cycles_delay_timer n s s' hrun ha
    exact ⟨h, fun hle => by omega⟩
  · have h := cycles_sound_timer n s s' hrun ha
    exact ⟨h, fun hle => by omega⟩

/-- C7 at `timerState`: five cycles from both timers at 3. -/
theorem timer_decay_witness :
    cycles 5 timerState = some timerStateAfter ∧
    avoids .OP_Fx15 5 timerState = true ∧ avoids .OP_Fx18 5 timerState = true ∧
    (∀ t, Cycle timerState = some t →
      (decode (fetch timerState) ≠ some .OP_Fx15 →
        t.delay_timer = if timerState.delay_timer > 0 then timerState.delay_timer - 1 else 0) ∧
      (decode (fetch timerState) ≠ some .OP_Fx18 →
        t.sound_timer = if timerState.sound_timer > 0 then timerState.sound_timer - 1 else 0)) ∧
    (avoids .OP_Fx15 5 timerState = true →
      timerStateAfter.delay_timer = timerState.delay_timer - 5 ∧
      (timerState.delay_timer ≤ 5 → timerStateAfter.delay_timer = 0)) ∧
    (avoids .OP_Fx18 5 timerState = true →
      timerStateAfter.sound_timer = timerState.sound_timer - 5 ∧
      (timerState.sound_timer ≤ 5 → timerStateAfter.sound_timer = 0)) :=
  ⟨rfl, by decide, by decide, timer_decay timerState timerStateAfter 5 rfl⟩

/-- In an increasing list the element `find?` returns is the first to
satisfy the test. -/
theorem find?_first (p : Nat → Bool) : ∀ (l : List Nat) (k : Nat), l.Pairwise (· < ·) →
    l.find? p = some k → ∀ j, j ∈ l → j < k → p j = false := by
  intro l
  induction l with
  | nil =>
    intro k _ h
    cases h
  | cons a l ih =>
    intro k hpw h j hj hjk
    have hpw' := List.pairwise_cons.mp hpw
    rcases List.find?_cons_eq_some.mp h with ⟨_, hak⟩ | ⟨hna, hrest⟩
    · subst hak
      rcases List.mem_cons.mp hj with hja | hjl
      · omega
      · have := hpw'.1 j hjl
        omega
    · rcases List.mem_cons.mp hj with hja | hjl
      · subst hja
        simpa using hna
      · exact ih k hpw'.2 hrest j hjl hjk

/-- What a cycle on `Fx0A` calls: the handler `OP_Fx0A` on the fetched
state. -/
theorem Cycle_Fx0A (s : Chip8) (hpc : s.program_counter + 1 < 4096)
    (hf : opFamily (fetch s) = 0xF) (hb : opByte (fetch s) = 0x0A) :
    Cycle s = (OP_Fx0A (fetched s)).map tickTimers := by
  rw [Cycle_call s .TableF hpc (by rw [hf]; rfl)]
  show (TableF (fetched s)).map tickTimers = _
  have hb' : opByte (fetched s).opcode = 0x0A := hb
  rw [TableF_call _ .OP_Fx0A (by rw [hb']; rfl)]
  rfl

/-- With no key down the cycle on `Fx0A` only stores the opcode and ticks the
timers: the program counter is back at its start value. -/
theorem Cycle_stall (s : Chip8) (hpc : s.program_counter + 1 < 4096)
    (hf : opFamily (fetch s) = 0xF) (hb : opByte (fetch s) = 0x0A)
    (hk : ∀ i, i < 16 → s.keypad i = 0) :
    Cycle s = some (tickTimers { s with opcode := fetch s }) := by
  rw [Cycle_Fx0A s hpc hf hb]
  have hnone : (List.range 16).find? (fun i => (fetched s).keypad i != 0) = none := by
    rw [List.find?_eq_none]
    intro i hi
    have : s.keypad i = 0 := hk i (List.mem_range.mp hi)
    simp [fetched, this]
  simp only [OP_Fx0A, hnone, Option.map_some']
  have hpc' : ((fetched s).program_counter + 65536 - 2) % 65536 = s.program_counter := by
    simp only [fetched]
    omega
  rw [hpc']
  rfl

theorem cycles_stall (p : Nat) (hpc : p + 1 < 4096) (n : Nat) : ∀ s : Chip8,
    s.program_counter = p → opFamily (fetch s) = 0xF → opByte (fetch s) = 0x0A →
    (∀ i, i < 16 → s.keypad i = 0) → ∃ s', cycles n s = some s' ∧ s'.program_counter = p := by
  induction n with
  | zero => exact fun s hp _ _ _ => ⟨s, rfl, hp⟩
  | succ n ih =>
    intro s hp hf hb hk
    have hc := Cycle_stall s (by rw [hp]; exact hpc) hf hb hk
    obtain ⟨s', h', hp'⟩ := ih (tickTimers { s with opcode := fetch s }) hp hf hb hk
    exact ⟨s', by simp only [cycles, hc, Option.some_bind, h'], hp'⟩

/-- C8. Key-wait stall: a cycle from program counter `p` (`p + 1 < 4096`)
whose fetched word is `Fx0A` ends with the program counter at `p` and every
register unchanged when all 16 keypad entries are zero; when one is nonzero
it ends with the program counter at `p + 2` and register `x` equal to the
smallest index of a nonzero entry.  Any number of cycles with all entries
zero leaves the program counter at `p`. -/
theorem key_wait_stall (s : Chip8) (p x : Nat) (hp : s.program_counter = p)
    (hpc : p + 1 < 4096) (hf : opFamily (fetch s) = 0xF) (hb : opByte (fetch s) = 0x0A)
    (hx : opVx (fetch s) = x) :
    ((∀ i, i < 16 → s.keypad i = 0) →
      (∃ s', Cycle s = some s' ∧ s'.program_counter = p ∧
        ∀ i, s'.cpu_registers i = s.cpu_registers i) ∧
      ∀ n, ∃ s', cycles n s = some s' ∧ s'.program_counter = p) ∧
    ((∃ i, i < 16 ∧ s.keypad i ≠ 0) →
      ∃ s' k, Cycle s = some s' ∧ s'.program_counter = p + 2 ∧ s'.cpu_registers x = k ∧
        k < 16 ∧ s.keypad k ≠ 0 ∧ ∀ j, j < k → s.keypad j = 0) := by
  subst hp
  constructor
  · intro hk
    refine ⟨⟨_, Cycle_stall s hpc hf hb hk, rfl, fun _ => rfl⟩, fun n => ?_⟩
    exact cycles_stall _ hpc n s rfl hf hb hk
  · rintro ⟨i, hi, hne⟩
    rw [Cycle_Fx0A s hpc hf hb]
    cases hfind : (List.range 16).find? (fun i => (fetched s).keypad i != 0) with
    | none =>
      rw [List.find?_eq_none] at hfind
      have := hfind i (List.mem_range.mpr hi)
      simp [fetched, hne] at this
    | some k =>
      have hk16 : k < 16 := List.mem_range.mp (List.mem_of_find?_eq_some hfind)
      have hkne : s.keypad k ≠ 0 := by
        have := List.find?_some hfind
        simpa [fetched] using this
      have hmin : ∀ j, j < k → s.keypad j = 0 := by
        intro j hj
        have := find?_first _ _ k (List.pairwise_lt_range 16) hfind j
          (List.mem_range.mpr (by omega)) hj
        simpa [fetched] using this
      have hrun : (OP_Fx0A (fetched s)).map tickTimers = some (tickTimers
          { fetched s with
            cpu_registers := write (fetched s).cpu_registers (opVx (fetched s).opcode) k }) := by
        simp only [OP_Fx0A, hfind, Option.map_some']
      refine ⟨_, k, hrun, ?_, ?_, hk16, hkne, hmin⟩
      · simp only [tickTimers, fetched]
        omega
      · have hx' : opVx (fetched s).opcode = x := hx
        simp only [tickTimers, hx', write_same]

/-- C8 at `keyState`: `F30A` with no key down, and with the keys 5 and 9 down. -/
theorem key_wait_stall_witness :
    (keyState (fun _ => 0)).program_counter = 0x200 ∧ 0x200 + 1 < 4096 ∧
    opFamily (fetch (keyState (fun _ => 0))) = 0xF ∧
    opByte (fetch (keyState (fun _ => 0))) = 0x0A ∧
    opVx (fetch (keyState (fun _ => 0))) = 3 ∧
    (∀ i, i < 16 → (keyState (fun _ => 0)).keypad i = 0) ∧
    ((∃ s', Cycle (keyState (fun _ => 0)) = some s' ∧ s'.program_counter = 0x200 ∧
        ∀ i, s'.cpu_registers i = (keyState (fun _ => 0)).cpu_registers i) ∧
      ∀ n, ∃ s', cycles n (keyState (fun _ => 0)) = some s' ∧ s'.program_counter = 0x200) ∧
    (∃ s' k, Cycle (keyState keysDown) = some s' ∧ s'.program_counter = 0x200 + 2 ∧
      s'.cpu_registers 3 = k ∧ k < 16 ∧ (keyState keysDown).keypad k ≠ 0 ∧
      ∀ j, j < k → (keyState keysDown).keypad j = 0) :=
  ⟨rfl, by decide, by decide, by decide, by decide, fun _ _ => rfl,
    (key_wait_stall (keyState (fun _ => 0)) 0x200 3 rfl (by decide) (by decide) (by decide)
      (by decide)).1 (fun _ _ => rfl),
    (key_wait_stall (keyState keysDown) 0x200 3 rfl (by decide) (by decide) (by decide)
      (by decide)).2 ⟨5, by decide, by decide⟩⟩

/-- C9. Call/return round trip: from program counter `p` (`p + 1 < 4096`)
and stack pointer `sp < 16`, with the fetched word a call `2nnn` and the
return instruction `00EE` stored at `nnn` (`nnn + 1 < 4096`), the first cycle
ends with the program counter at `nnn`, the stack pointer at `sp + 1` and
`stack[sp] = p + 2`; the second cycle ends with the program counter at
`p + 2` and the stack pointer at `sp`. -/
theorem call_return_round_trip (s : Chip8) (p sp nnn : Nat) (hp : s.program_counter = p)
    (hpc : p + 1 < 4096) (hsp : s.stack_pointer = sp) (hs : sp < 16)
    (hf : opFamily (fetch s) = 2) (hn : opAddr (fetch s) = nnn) (hnn : nnn + 1 < 4096)
    (hret0 : s.memory nnn = 0x00) (hret1 : s.memory (nnn + 1) = 0xEE) :
    ∃ s1, Cycle s = some s1 ∧ s1.program_counter = nnn ∧ s1.stack_pointer = sp + 1 ∧
      s1.stack sp = p + 2 ∧
      ∃ s2, Cycle s1 = some s2 ∧ s2.program_counter = p + 2 ∧ s2.stack_pointer = sp := by
  subst hp hsp
  have hs' : (fetched s).stack_pointer < 16 := hs
  have hn' : opAddr (fetched s).opcode = nnn := hn
  have h1 : Cycle s = some (tickTimers
      { fetched s with
        stack := write s.stack s.stack_pointer ((s.program_counter + 2) % 65536)
        stack_pointer := (s.stack_pointer + 1) % 256
        program_counter := nnn }) := by
    rw [Cycle_call s (.op .OP_2nnn) hpc (by rw [hf]; rfl)]
    show (OP_2nnn (fetched s)).map tickTimers = _
    simp only [OP_2nnn, hs', if_true, Option.map_some', hn']
    rfl
  refine ⟨_, h1, rfl, ?_, ?_, ?_⟩
  · show (s.stack_pointer + 1) % 256 = s.stack_pointer + 1
    omega
  · show write s.stack s.stack_pointer ((s.program_counter + 2) % 65536) s.stack_pointer = _
    rw [write_same]
    omega
  · generalize hs1 : tickTimers
      { fetched s with
        stack := write s.stack s.stack_pointer ((s.program_counter + 2) % 65536)
        stack_pointer := (s.stack_pointer + 1) % 256
        program_counter := nnn } = s1
    have hpc1 : s1.program_counter = nnn := by rw [← hs1]; rfl
    have hmem1 : s1.memory = s.memory := by rw [← hs1]; rfl
    have hsp1 : s1.stack_pointer = (s.stack_pointer + 1) % 256 := by rw [← hs1]; rfl
    have hst1 : s1.stack = write s.stack s.stack_pointer ((s.program_counter + 2) % 65536) := by
      rw [← hs1]; rfl
    have hw : fetch s1 = 0x00EE := by
      simp only [fetch, hpc1, hmem1, hret0, hret1]
      decide
    have hspr : ((fetched s1).stack_pointer + 255) % 256 = s.stack_pointer := by
      show (s1.stack_pointer + 255) % 256 = _
      rw [hsp1]
      omega
    have h2 : Cycle s1 = some (tickTimers
        { fetched s1 with
          stack_pointer := s.stack_pointer
          program_counter := s1.stack s.stack_pointer }) := by
      rw [Cycle_call s1 .Table0 (by rw [hpc1]; exact hnn) (by rw [hw]; rfl)]
      show (Table0 (fetched s1)).map tickTimers = _
      have hop : (fetched s1).opcode = 0x00EE := hw
      rw [Table0_call _ .OP_00EE (by rw [hop]; rfl)]
      show (OP_00EE (fetched s1)).map tickTimers = _
      simp only [OP_00EE, hspr, hs, if_true, Option.map_some']
      rfl
    refine ⟨_, h2, ?_, rfl⟩
    show s1.stack s.stack_pointer = _
    rw [hst1, write_same]
    omega

/-- C9 at `callState`: `2300` at `0x200`, `00EE` at `0x300`, stack pointer 2. -/
theorem call_return_round_trip_witness :
    callState.program_counter = 0x200 ∧ 0x200 + 1 < 4096 ∧ callState.stack_pointer = 2 ∧
    2 < 16 ∧ opFamily (fetch callState) = 2 ∧ opAddr (fetch callState) = 0x300 ∧
    0x300 + 1 < 4096 ∧ callState.memory 0x300 = 0x00 ∧ callState.memory (0x300 + 1) = 0xEE ∧
    ∃ s1, Cycle callState = some s1 ∧ s1.program_counter = 0x300 ∧ s1.stack_pointer = 2 + 1 ∧
      s1.stack 2 = 0x200 + 2 ∧
      ∃ s2, Cycle s1 = some s2 ∧ s2.program_counter = 0x200 + 2 ∧ s2.stack_pointer = 2 :=
  ⟨rfl, by decide, rfl, by decide, by decide, by decide, by decide, by decide, by decide,
    call_return_round_trip callState 0x200 2 0x300 rfl (by decide) rfl (by decide) (by decide)
      (by decide) (by decide) (by decide) (by decide)⟩

theorem opNibble_lt (w : Nat) : opNibble w < 16 := by
  have h : w &&& 0x000F ≤ 0x000F := Nat.and_le_right
  unfold opNibble
  omega

theorem table0_undefined : ∀ n, n < 15 → n ≠ 0 → n ≠ 0xE → table0[n]? = some .OP_NULL := by
  decide

theorem table8_undefined : ∀ n, n < 15 → 7 < n → n ≠ 0xE → table8[n]? = some .OP_NULL := by
  decide

theorem tableE_undefined : ∀ n, n < 15 → n ≠ 1 → n ≠ 0xE → tableE[n]? = some .OP_NULL := by
  decide

set_option maxRecDepth 100000 in
theorem tableF_undefined : ∀ b, b < 0x66 →
    b ∉ [0x07, 0x0A, 0x15, 0x18, 0x1E, 0x29, 0x33, 0x55, 0x65] →
    tableF[b]? = some .OP_NULL := by
  decide

/-- C10 inside the arrays: an undefined sub-opcode whose index is inside its
sub-table (low nibble at most `0xE` for the families 0, 8 and E, low byte at
most `0x65` for the family F) selects `OP_NULL`, and `OP_NULL` returns the
state it was given. -/
theorem undefined_in_range_is_null (w : Nat) :
    (opFamily w = 0x0 → opNibble w ≠ 0x0 → opNibble w ≠ 0xE → opNibble w ≠ 0xF →
      decode w = some .OP_NULL) ∧
    (opFamily w = 0x8 → 7 < opNibble w → opNibble w ≠ 0xE → opNibble w ≠ 0xF →
      decode w = some .OP_NULL) ∧
    (opFamily w = 0xE → opNibble w ≠ 0x1 → opNibble w ≠ 0xE → opNibble w ≠ 0xF →
      decode w = some .OP_NULL) ∧
    (opFamily w = 0xF → opByte w ≤ 0x65 → opByte w ≠ 0x07 → opByte w ≠ 0x0A →
      opByte w ≠ 0x15 → opByte w ≠ 0x18 → opByte w ≠ 0x1E → opByte w ≠ 0x29 →
      opByte w ≠ 0x33 → opByte w ≠ 0x55 → opByte w ≠ 0x65 → decode w = some .OP_NULL) ∧
    ∀ s, Chip8Func.OP_NULL.call s = some s := by
  have hn := opNibble_lt w
  refine ⟨?_, ?_, ?_, ?_, fun _ => rfl⟩
  · intro hf h0 hE hF
    have he : table[opFamily w]? = some .Table0 := by rw [hf]; rfl
    simp only [decode, he]
    exact table0_undefined _ (by omega) h0 hE
  · intro hf h7 hE hF
    have he : table[opFamily w]? = some .Table8 := by rw [hf]; rfl
    simp only [decode, he]
    exact table8_undefined _ (by omega) h7 hE
  · intro hf h1 hE hF
    have he : table[opFamily w]? = some .TableE := by rw [hf]; rfl
    simp only [decode, he]
    exact tableE_undefined _ (by omega) h1 hE
  · intro hf hle h1 h2 h3 h4 h5 h6 h7 h8 h9
    have he : table[opFamily w]? = some .TableF := by rw [hf]; rfl
    simp only [decode, he]
    exact tableF_undefined _ (by omega) (by simp [h1, h2, h3, h4, h5, h6, h7, h8, h9])

/-- C10 past the arrays: the word `F0FF` (family F, low byte `0xFF`, none of
the nine defined values) indexes `tableF`, an array of `0x66` entries, at
`0xFF`, and the words `000F`, `800F`, `E00F` (low nibble `0xF`, not a defined
sub-opcode) index arrays of 15 entries at 15: no handler is selected, and a
cycle that fetches one of these words does not complete. -/
theorem undefined_subopcode_out_of_range :
    tableF.length = 0x66 ∧ opFamily 0xF0FF = 0xF ∧ opByte 0xF0FF = 0xFF ∧
    decode 0xF0FF = none ∧
    fetch (wordState 0xF0 0xFF) = 0xF0FF ∧ (Cycle (wordState 0xF0 0xFF)).isSome = false ∧
    table0.length = 15 ∧ table8.length = 15 ∧ tableE.length = 15 ∧
    opNibble 0x000F = 0xF ∧ opNibble 0x800F = 0xF ∧ opNibble 0xE00F = 0xF ∧
    decode 0x000F = none ∧ decode 0x800F = none ∧ decode 0xE00F = none ∧
    fetch (wordState 0x80 0x0F) = 0x800F ∧ (Cycle (wordState 0x80 0x0F)).isSome = false := by
  decide

theorem addFlagState_WF : addFlagState.WF :=
  WF_regs_opcode _ (init_WF _) _ _ (by intro i _; simp only [write]; split_ifs <;> omega)
    (by decide)

theorem flagOperandState_WF : flagOperandState.WF :=
  WF_regs_opcode _ (init_WF _) _ _ (by intro i _; simp only [write]; split_ifs <;> omega)
    (by decide)

/-- C11 as stated fails when `x` is the flag register: `8F04` with VF = 3
and V0 = 4 has the sum 7 and the carry 0, and ends with register 15 equal to
7, the result stored after the flag, neither the carry nor a value of
`{0, 1}`. -/
theorem flag_lost_to_result :
    addFlagState.WF ∧ opVx addFlagState.opcode = 15 ∧ opVy addFlagState.opcode = 0 ∧
    addFlagState.cpu_registers 15 + addFlagState.cpu_registers 0 = 7 ∧
    (OP_8xy4 addFlagState).map (fun s => s.cpu_registers 15) = some 7 :=
  ⟨addFlagState_WF, by decide, by decide, by decide, by decide⟩

/-- C11 amended. For `x` other than 15 and any `y` (15 included), with `a`
and `b` the values of registers `x` and `y` before the handler, register 15
holds the handler's flag afterwards: the carry `a + b > 255` after `OP_8xy4`,
the not-borrow `a > b` after `OP_8xy5` and `b > a` after `OP_8xy7`, the bit
`a mod 2` after `OP_8xy6` and the bit `a div 128` after `OP_8xyE`; in each
case it is 0 or 1. -/
theorem flag_overwritten (s : Chip8) (x y : Nat) (hwf : s.WF)
    (hx : opVx s.opcode = x) (hy : opVy s.opcode = y) (hxF : x ≠ 15) :
    (∃ s', OP_8xy4 s = some s' ∧ s'.cpu_registers 15 ≤ 1 ∧
      s'.cpu_registers 15 = if s.cpu_registers x + s.cpu_registers y > 255 then 1 else 0) ∧
    (∃ s', OP_8xy5 s = some s' ∧ s'.cpu_registers 15 ≤ 1 ∧
      s'.cpu_registers 15 = if s.cpu_registers x > s.cpu_registers y then 1 else 0) ∧
    (∃ s', OP_8xy6 s = some s' ∧ s'.cpu_registers 15 ≤ 1 ∧
      s'.cpu_registers 15 = s.cpu_registers x % 2) ∧
    (∃ s', OP_8xy7 s = some s' ∧ s'.cpu_registers 15 ≤ 1 ∧
      s'.cpu_registers 15 = if s.cpu_registers y > s.cpu_registers x then 1 else 0) ∧
    (∃ s', OP_8xyE s = some s' ∧ s'.cpu_registers 15 ≤ 1 ∧
      s'.cpu_registers 15 = s.cpu_registers x / 128) := by
  have ha := hwf.reg_lt x (hx ▸ opVx_lt _)
  have hb := hwf.reg_lt y (hy ▸ opVy_lt _)
  have hsum : (s.cpu_registers x + s.cpu_registers y) % 65536
      = s.cpu_registers x + s.cpu_registers y := Nat.mod_eq_of_lt (by omega)
  have hF : (15 : Nat) ≠ x := Ne.symm hxF
  have key : ∀ (c : Prop) [Decidable c] (v : Nat),
      write (if c then write s.cpu_registers 0xF 1 else write s.cpu_registers 0xF 0) x v 15
        = if c then 1 else 0 := by
    intro c _ v
    rw [write_other _ _ _ _ hF]
    split <;> exact write_same _ _ _
  have keyS : ∀ f v : Nat, write (write s.cpu_registers 0xF f) x v 15 = f := by
    intro f v
    rw [write_other _ _ _ _ hF, write_same]
  refine ⟨⟨_, rfl, ?_, ?_⟩, ⟨_, rfl, ?_, ?_⟩, ⟨_, rfl, ?_, ?_⟩, ⟨_, rfl, ?_, ?_⟩, ⟨_, rfl, ?_, ?_⟩⟩
  · simp only [hx, hy, hsum]
    rw [key]
    split <;> omega
  · simp only [hx, hy, hsum]
    exact key _ _
  · simp only [hx, hy]
    rw [key]
    split <;> omega
  · simp only [hx, hy]
    exact key _ _
  · simp only [hx]
    rw [keyS, and_one]
    omega
  · simp only [hx]
    rw [keyS, and_one]
  · simp only [hx, hy]
    rw [key]
    split <;> omega
  · simp only [hx, hy]
    exact key _ _
  · simp only [hx]
    rw [keyS, top_bit _ ha]
    omega
  · simp only [hx]
    rw [keyS, top_bit _ ha]

/-- C11 amended at `flagOperandState`: `x = 1`, `y = 15`, V1 = 200, VF = 100. -/
theorem flag_overwritten_witness :
    flagOperandState.WF ∧ opVx flagOperandState.opcode = 1 ∧
    opVy flagOperandState.opcode = 15 ∧ (1 : Nat) ≠ 15 ∧
    (∃ s', OP_8xy4 flagOperandState = some s' ∧ s'.cpu_registers 15 ≤ 1 ∧
      s'.cpu_registers 15 = if flagOperandState.cpu_registers 1 + flagOperandState.cpu_registers 15 > 255 then 1 else 0) ∧
    (∃ s', OP_8xy5 flagOperandState = some s' ∧ s'.cpu_registers 15 ≤ 1 ∧
      s'.cpu_registers 15 = if flagOperandState.cpu_registers 1 > flagOperandState.cpu_registers 15 then 1 else 0) ∧
    (∃ s', OP_8xy6 flagOperandState = some s' ∧ s'.cpu_registers 15 ≤ 1 ∧
      s'.cpu_registers 15 = flagOperandState.cpu_registers 1 % 2) ∧
    (∃ s', OP_8xy7 flagOperandState = some s' ∧ s'.cpu_registers 15 ≤ 1 ∧
      s'.cpu_registers 15 = if flagOperandState.cpu_registers 15 > flagOperandState.cpu_registers 1 then 1 else 0) ∧
    (∃ s', OP_8xyE flagOperandState = some s' ∧ s'.cpu_registers 15 ≤ 1 ∧
      s'.cpu_registers 15 = flagOperandState.cpu_registers 1 / 128) :=
  ⟨flagOperandState_WF, by decide, by decide, by decide,
    flag_overwritten flagOperandState 1 15 flagOperandState_WF (by decide) (by decide)
      (by decide)⟩

theorem and_two_pow_ne_zero (b k : Nat) : b &&& 2 ^ k ≠ 0 ↔ b / 2 ^ k % 2 = 1 := by
  have hk : (b &&& 2 ^ k).testBit k = b.testBit k := by
    rw [Nat.testBit_and, Nat.testBit_two_pow_self, Bool.and_true]
  constructor
  · intro hne
    obtain ⟨i, hi⟩ := Nat.ne_zero_implies_bit_true hne
    rw [Nat.testBit_and, Nat.testBit_two_pow] at hi
    simp only [Bool.and_eq_true, decide_eq_true_eq] at hi
    have h := hi.1
    rw [← hi.2, Nat.testBit_to_div_mod] at h
    simpa using h
  · intro hb he
    rw [he, Nat.zero_testBit, Nat.testBit_to_div_mod] at hk
    simp [hb] at hk

/-- The mask test of the draw loop reads bit `7 - col` of the sprite byte. -/
theorem mask_test (b col : Nat) (hcol : col < 8) :
    b &&& (0x80 >>> col) ≠ 0 ↔ b / 2 ^ (7 - col) % 2 = 1 := by
  have h : (0x80 : Nat) >>> col = 2 ^ (7 - col) := by
    interval_cases col <;> rfl
  rw [h]
  exact and_two_pow_ne_zero b (7 - col)

theorem spriteBit_iff (s : Chip8) (row col : Nat) (hcol : col < 8) :
    spriteBit s (row * 8 + col) ↔ rowBit s row col := by
  have hdiv : (row * 8 + col) / 8 = row := by omega
  have hmod : (row * 8 + col) % 8 = col := by omega
  simp only [spriteBit, rowBit, hdiv, hmod]
  exact mask_test _ col hcol

theorem cellOf_eq (xPos yPos row col : Nat) (hcol : col < 8) :
    cellOf xPos yPos (row * 8 + col) = (yPos + row) * 64 + (xPos + col) := by
  have hdiv : (row * 8 + col) / 8 = row := by omega
  have hmod : (row * 8 + col) % 8 = col := by omega
  simp only [cellOf, hdiv, hmod]

/-- The cells hit in the `8 * n` turns, by sprite row and column. -/
theorem Hit_iff (s : Chip8) (xPos yPos n i : Nat) :
    Hit s xPos yPos (n * 8) i ↔
      ∃ row col, row < n ∧ col < 8 ∧ rowBit s row col ∧ (yPos + row) * 64 + (xPos + col) = i := by
  constructor
  · rintro ⟨k, hk, hb, hc⟩
    have hcol : k % 8 < 8 := Nat.mod_lt _ (by decide)
    have hk8 : k / 8 * 8 + k % 8 = k := by omega
    refine ⟨k / 8, k % 8, by omega, hcol, ?_, ?_⟩
    · rw [← spriteBit_iff s _ _ hcol, hk8]
      exact hb
    · rw [← cellOf_eq _ _ _ _ hcol, hk8]
      exact hc
  · rintro ⟨row, col, hrow, hcol, hb, hc⟩
    exact ⟨row * 8 + col, by omega, (spriteBit_iff s row col hcol).mpr hb,
      (cellOf_eq _ _ _ _ hcol).trans hc⟩

/-- A collision in the `8 * n` turns, by sprite row and column. -/
theorem Collides_iff (s : Chip8) (xPos yPos n : Nat) :
    Collides s xPos yPos (n * 8) ↔
      ∃ row col, row < n ∧ col < 8 ∧ rowBit s row col ∧
        s.video ((yPos + row) * 64 + (xPos + col)) = 0xFFFFFFFF := by
  constructor
  · rintro ⟨k, hk, hb, hc⟩
    have hcol : k % 8 < 8 := Nat.mod_lt _ (by decide)
    have hk8 : k / 8 * 8 + k % 8 = k := by omega
    refine ⟨k / 8, k % 8, by omega, hcol, ?_, ?_⟩
    · rw [← spriteBit_iff s _ _ hcol, hk8]
      exact hb
    · rw [← cellOf_eq _ _ _ _ hcol, hk8]
      exact hc
  · rintro ⟨row, col, hrow, hcol, hb, hc⟩
    exact ⟨row * 8 + col, by omega, (spriteBit_iff s row col hcol).mpr hb, by
      rw [cellOf_eq _ _ _ _ hcol]
      exact hc⟩

/-- The result of `OP_Dxyn`, every access in range, by sprite row and
column: the cells under a set sprite bit are inverted, the others kept;
register 15 tells whether one of them held `0xFFFFFFFF`. -/
theorem OP_Dxyn_post (s : Chip8)
    (hmem : s.index_register + opNibble s.opcode ≤ 4096)
    (hvid : ∀ row col, row < opNibble s.opcode → col < 8 →
      (s.cpu_registers (opVy s.opcode) % 32 + row) * 64
        + (s.cpu_registers (opVx s.opcode) % 64 + col) < 2048) :
    ∃ s', OP_Dxyn s = some s' ∧
      (∀ i, (∃ row col, row < opNibble s.opcode ∧ col < 8 ∧ rowBit s row col ∧
          (s.cpu_registers (opVy s.opcode) % 32 + row) * 64
            + (s.cpu_registers (opVx s.opcode) % 64 + col) = i) →
        s'.video i = s.video i ^^^ 0xFFFFFFFF) ∧
      (∀ i, (¬ ∃ row col, row < opNibble s.opcode ∧ col < 8 ∧ rowBit s row col ∧
          (s.cpu_registers (opVy s.opcode) % 32 + row) * 64
            + (s.cpu_registers (opVx s.opcode) % 64 + col) = i) →
        s'.video i = s.video i) ∧
      ((∃ row col, row < opNibble s.opcode ∧ col < 8 ∧ rowBit s row col ∧
          s.video ((s.cpu_registers (opVy s.opcode) % 32 + row) * 64
            + (s.cpu_registers (opVx s.opcode) % 64 + col)) = 0xFFFFFFFF) →
        s'.cpu_registers 15 = 1) ∧
      ((¬ ∃ row col, row < opNibble s.opcode ∧ col < 8 ∧ rowBit s row col ∧
          s.video ((s.cpu_registers (opVy s.opcode) % 32 + row) * 64
            + (s.cpu_registers (opVx s.opcode) % 64 + col)) = 0xFFFFFFFF) →
        s'.cpu_registers 15 = 0) := by
  obtain ⟨s', h, inv⟩ := OP_Dxyn_inv s hmem hvid
  refine ⟨s', h, ?_, ?_, ?_, ?_⟩
  · intro i hi
    exact inv.hit i ((Hit_iff _ _ _ _ i).mpr hi)
  · intro i hi
    exact inv.miss i (fun hh => hi ((Hit_iff _ _ _ _ i).mp hh))
  · intro hc
    exact inv.coll ((Collides_iff _ _ _ _).mpr hc)
  · intro hc
    exact inv.free (fun hh => hc ((Collides_iff _ _ _ _).mp hh))

/-- C12. Draw semantics: over a framebuffer whose cells are all 0 or
`0xFFFFFFFF`, with `xPos = Vx mod 64 ≤ 56`, `yPos = Vy mod 32`,
`yPos + n ≤ 32` and `index_register + n ≤ 4096` (Vx, Vy as before the
handler, any `x`, `y`), `OP_Dxyn` completes; the cell in column `xPos + col`
of row `yPos + row` (`row < n`, `col < 8`) is toggled when bit `7 - col` of
`memory[index_register + row]` is set and kept when it is not, every other
cell is kept, and register 15 ends as 1 when a toggled cell was on before the
draw and as 0 otherwise. -/
theorem draw_semantics (s : Chip8) (x y n : Nat)
    (hx : opVx s.opcode = x) (hy : opVy s.opcode = y) (hn : opNibble s.opcode = n)
    (hcells : ∀ i, i < 2048 → s.video i = 0 ∨ s.video i = 0xFFFFFFFF)
    (hxp : s.cpu_registers x % 64 ≤ 56) (hyp : s.cpu_registers y % 32 + n ≤ 32)
    (hmem : s.index_register + n ≤ 4096) :
    ∃ s', OP_Dxyn s = some s' ∧
      (∀ row col, row < n → col < 8 →
        (rowBit s row col →
          (s.video ((s.cpu_registers y % 32 + row) * 64 + (s.cpu_registers x % 64 + col)) = 0 ∧
            s'.video ((s.cpu_registers y % 32 + row) * 64 + (s.cpu_registers x % 64 + col))
              = 0xFFFFFFFF) ∨
          (s.video ((s.cpu_registers y % 32 + row) * 64 + (s.cpu_registers x % 64 + col))
              = 0xFFFFFFFF ∧
            s'.video ((s.cpu_registers y % 32 + row) * 64 + (s.cpu_registers x % 64 + col))
              = 0)) ∧
        (¬ rowBit s row col →
          s'.video ((s.cpu_registers y % 32 + row) * 64 + (s.cpu_registers x % 64 + col))
            = s.video ((s.cpu_registers y % 32 + row) * 64 + (s.cpu_registers x % 64 + col)))) ∧
      (∀ i, (∀ row col, row < n → col < 8 →
          i ≠ (s.cpu_registers y % 32 + row) * 64 + (s.cpu_registers x % 64 + col)) →
        s'.video i = s.video i) ∧
      ((∃ row col, row < n ∧ col < 8 ∧ rowBit s row col ∧
          s.video ((s.cpu_registers y % 32 + row) * 64 + (s.cpu_registers x % 64 + col))
            = 0xFFFFFFFF) →
        s'.cpu_registers 15 = 1) ∧
      ((¬ ∃ row col, row < n ∧ col < 8 ∧ rowBit s row col ∧
          s.video ((s.cpu_registers y % 32 + row) * 64 + (s.cpu_registers x % 64 + col))
            = 0xFFFFFFFF) →
        s'.cpu_registers 15 = 0) ∧
      (n = 0 → s'.cpu_registers 15 = 0) := by
  subst hx hy hn
  have hvid : ∀ row col, row < opNibble s.opcode → col < 8 →
      (s.cpu_registers (opVy s.opcode) % 32 + row) * 64
        + (s.cpu_registers (opVx s.opcode) % 64 + col) < 2048 := by
    intro row col hrow hcol
    omega
  obtain ⟨s', h, hhit, hmiss, hcoll, hfree⟩ := OP_Dxyn_post s hmem hvid
  refine ⟨s', h, ?_, ?_, hcoll, hfree, ?_⟩
  · intro row col hrow hcol
    constructor
    · intro hb
      rw [hhit _ ⟨row, col, hrow, hcol, hb, rfl⟩]
      rcases hcells _ (hvid row col hrow hcol) with h0 | h1
      · left
        rw [h0]
        exact ⟨rfl, by decide⟩
      · right
        rw [h1]
        exact ⟨rfl, by decide⟩
    · intro hb
      apply hmiss
      rintro ⟨row', col', _, hcol', hb', he⟩
      have hr : row' = row := by omega
      have hc : col' = col := by omega
      subst hr hc
      exact hb hb'
  · intro i hi
    apply hmiss
    rintro ⟨row, col, hrow, hcol, _, he⟩
    exact hi row col hrow hcol he.symm
  · intro hn0
    apply hfree
    rintro ⟨row, _, hrow, _⟩
    omega

theorem drawOnState_cells : ∀ i, i < 2048 →
    drawOnState.video i = 0 ∨ drawOnState.video i = 0xFFFFFFFF := by
  intro i _
  simp only [drawOnState, write]
  split
  · exact Or.inr rfl
  · exact Or.inl rfl

/-- C12 at `drawOnState`: the glyph `0` drawn at the top left corner, whose
first cell is on. -/
theorem draw_semantics_witness :
    opVx drawOnState.opcode = 0 ∧ opVy drawOnState.opcode = 1 ∧
    opNibble drawOnState.opcode = 5 ∧
    (∀ i, i < 2048 → drawOnState.video i = 0 ∨ drawOnState.video i = 0xFFFFFFFF) ∧
    drawOnState.cpu_registers 0 % 64 ≤ 56 ∧ drawOnState.cpu_registers 1 % 32 + 5 ≤ 32 ∧
    drawOnState.index_register + 5 ≤ 4096 ∧
    ∃ s', OP_Dxyn drawOnState = some s' ∧
      (∀ row col, row < 5 → col < 8 →
        (rowBit drawOnState row col →
          (drawOnState.video ((drawOnState.cpu_registers 1 % 32 + row) * 64 + (drawOnState.cpu_registers 0 % 64 + col)) = 0 ∧
            s'.video ((drawOnState.cpu_registers 1 % 32 + row) * 64 + (drawOnState.cpu_registers 0 % 64 + col))
              = 0xFFFFFFFF) ∨
          (drawOnState.video ((drawOnState.cpu_registers 1 % 32 + row) * 64 + (drawOnState.cpu_registers 0 % 64 + col))
              = 0xFFFFFFFF ∧
            s'.video ((drawOnState.cpu_registers 1 % 32 + row) * 64 + (drawOnState.cpu_registers 0 % 64 + col))
              = 0)) ∧
        (¬ rowBit drawOnState row col →
          s'.video ((drawOnState.cpu_registers 1 % 32 + row) * 64 + (drawOnState.cpu_registers 0 % 64 + col))
            = drawOnState.video ((drawOnState.cpu_registers 1 % 32 + row) * 64 + (drawOnState.cpu_registers 0 % 64 + col)))) ∧
      (∀ i, (∀ row col, row < 5 → col < 8 →
          i ≠ (drawOnState.cpu_registers 1 % 32 + row) * 64 + (drawOnState.cpu_registers 0 % 64 + col)) →
        s'.video i = drawOnState.video i) ∧
      ((∃ row col, row < 5 ∧ col < 8 ∧ rowBit drawOnState row col ∧
          drawOnState.video ((drawOnState.cpu_registers 1 % 32 + row) * 64 + (drawOnState.cpu_registers 0 % 64 + col))
            = 0xFFFFFFFF) →
        s'.cpu_registers 15 = 1) ∧
      ((¬ ∃ row col, row < 5 ∧ col < 8 ∧ rowBit drawOnState row col ∧
          drawOnState.video ((drawOnState.cpu_registers 1 % 32 + row) * 64 + (drawOnState.cpu_registers 0 % 64 + col))
            = 0xFFFFFFFF) →
        s'.cpu_registers 15 = 0) ∧
      ((5 : Nat) = 0 → s'.cpu_registers 15 = 0) :=
  ⟨by decide, by decide, by decide, drawOnState_cells, by decide, by decide, by decide,
    draw_semantics drawOnState 0 1 5 (by decide) (by decide) (by decide) drawOnState_cells
      (by decide) (by decide) (by decide)⟩

/-- C13 as stated fails: `D011` with `xPos = 60 > 56`, `yPos = 0` and the
sprite byte `0xFF` addresses the indices 60 to 67, all below 2048, and turns
on cell 64, which is column 0 (less than `xPos`) of row 1, the row after the
sprite's. -/
theorem draw_runs_into_next_row :
    opVx wrapState.opcode = 0 ∧ opVy wrapState.opcode = 1 ∧ opNibble wrapState.opcode = 1 ∧
    wrapState.cpu_registers 0 % 64 = 60 ∧ wrapState.cpu_registers 1 % 32 = 0 ∧
    wrapState.memory wrapState.index_register = 0xFF ∧
    (0 + 0) * 64 + (60 + 7) < 2048 ∧ 64 / 64 = 1 ∧ 64 % 64 = 0 ∧
    wrapState.video 64 = 0 ∧
    (OP_Dxyn wrapState).map (fun s => s.video 64) = some 0xFFFFFFFF := by
  decide

/-- C13 amended. With `xPos = Vx mod 64 > 56`, every addressed index below
2048 and `index_register + n ≤ 4096`, `OP_Dxyn` completes and changes no
cell whose column `c` has `xPos - 56 ≤ c < xPos`; a set sprite bit whose
column `xPos + col` is 64 or more inverts the cell in column
`xPos + col - 64` of the following row `yPos + row + 1`. -/
theorem draw_past_right_edge (s : Chip8) (x y n : Nat)
    (hx : opVx s.opcode = x) (hy : opVy s.opcode = y) (hn : opNibble s.opcode = n)
    (hxp : s.cpu_registers x % 64 > 56) (hmem : s.index_register + n ≤ 4096)
    (hvid : ∀ row col, row < n → col < 8 →
      (s.cpu_registers y % 32 + row) * 64 + (s.cpu_registers x % 64 + col) < 2048) :
    ∃ s', OP_Dxyn s = some s' ∧
      (∀ i, s.cpu_registers x % 64 - 56 ≤ i % 64 → i % 64 < s.cpu_registers x % 64 →
        s'.video i = s.video i) ∧
      (∀ row col, row < n → col < 8 → 64 ≤ s.cpu_registers x % 64 + col → rowBit s row col →
        s'.video ((s.cpu_registers y % 32 + row + 1) * 64 + (s.cpu_registers x % 64 + col - 64))
          = s.video ((s.cpu_registers y % 32 + row + 1) * 64
              + (s.cpu_registers x % 64 + col - 64)) ^^^ 0xFFFFFFFF) := by
  subst hx hy hn
  obtain ⟨s', h, hhit, hmiss, _, _⟩ := OP_Dxyn_post s hmem hvid
  refine ⟨s', h, ?_, ?_⟩
  · intro i hlo hhi
    apply hmiss
    rintro ⟨row, col, _, hcol, _, he⟩
    omega
  · intro row col hrow hcol hover hb
    exact hhit _ ⟨row, col, hrow, hcol, hb, by omega⟩

/-- C13 amended at `wrapState`: `xPos = 60`, one sprite row `0xFF`. -/
theorem draw_past_right_edge_witness :
    opVx wrapState.opcode = 0 ∧ opVy wrapState.opcode = 1 ∧ opNibble wrapState.opcode = 1 ∧
    wrapState.cpu_registers 0 % 64 > 56 ∧ wrapState.index_register + 1 ≤ 4096 ∧
    (∀ row col, row < 1 → col < 8 →
      (wrapState.cpu_registers 1 % 32 + row) * 64 + (wrapState.cpu_registers 0 % 64 + col)
        < 2048) ∧
    ∃ s', OP_Dxyn wrapState = some s' ∧
      (∀ i, wrapState.cpu_registers 0 % 64 - 56 ≤ i % 64 →
        i % 64 < wrapState.cpu_registers 0 % 64 → s'.video i = wrapState.video i) ∧
      (∀ row col, row < 1 → col < 8 → 64 ≤ wrapState.cpu_registers 0 % 64 + col →
        rowBit wrapState row col →
        s'.video ((wrapState.cpu_registers 1 % 32 + row + 1) * 64
            + (wrapState.cpu_registers 0 % 64 + col - 64))
          = wrapState.video ((wrapState.cpu_registers 1 % 32 + row + 1) * 64
              + (wrapState.cpu_registers 0 % 64 + col - 64)) ^^^ 0xFFFFFFFF) :=
  have hv : ∀ row col, row < 1 → col < 8 →
      (wrapState.cpu_registers 1 % 32 + row) * 64 + (wrapState.cpu_registers 0 % 64 + col)
        < 2048 := by
    intro row col h1 h2
    have e1 : wrapState.cpu_registers 1 % 32 = 0 := by decide
    have e0 : wrapState.cpu_registers 0 % 64 = 60 := by decide
    rw [e1, e0]
    omega
  ⟨by decide, by decide, by decide, by decide, by decide, hv,
    draw_past_right_edge wrapState 0 1 1 (by decide) (by decide) (by decide) (by decide)
      (by decide) hv⟩

theorem font_loaded (draws : Nat → Nat) :
    ∀ i, i < 80 → (init draws).memory (0x50 + i) = fontset.getD i 0 := by
  intro i hi
  show loadFont 80 (fun _ => 0) (0x50 + i) = _
  rw [loadFont_apply, if_pos (by omega)]
  congr 1
  omega

/-- C14. Initial state: the constructor's state has the program counter at
`0x200`, the 16 registers, the index register, the stack pointer, both
timers, the 16 keypad entries and the 2048 framebuffer cells at 0,
`memory[0x50 + i] = fontset[i]` for the 80 font bytes (`0x050` to `0x09F`)
and every other memory cell at 0. -/
theorem initial_state (draws : Nat → Nat) :
    (init draws).program_counter = 0x200 ∧
    (∀ i, i < 16 → (init draws).cpu_registers i = 0) ∧
    (init draws).index_register = 0 ∧ (init draws).stack_pointer = 0 ∧
    (init draws).delay_timer = 0 ∧ (init draws).sound_timer = 0 ∧
    (∀ i, i < 16 → (init draws).keypad i = 0) ∧
    (∀ i, i < 2048 → (init draws).video i = 0) ∧
    fontset.length = 80 ∧
    (∀ i, i < 80 → (init draws).memory (0x50 + i) = fontset.getD i 0) ∧
    (∀ a, a < 0x50 ∨ 0x9F < a → (init draws).memory a = 0) := by
  refine ⟨rfl, fun _ _ => rfl, rfl, rfl, rfl, rfl, fun _ _ => rfl, fun _ _ => rfl, rfl, ?_, ?_⟩
  · exact font_loaded draws
  · intro a ha
    show loadFont 80 (fun _ => 0) a = _
    rw [loadFont_apply, if_neg (by omega)]

theorem glyphState_WF : glyphState.WF :=
  WF_regs_opcode _ (init_WF _) _ _ (by intro i _; simp only [write]; split_ifs <;> omega)
    (by decide)

/-- C15. Glyph address: with `d` the value of register `x`, `OP_Fx29` sets
the index register to `0x50 + 5 * d` and changes nothing else.  For
`d < 16` the address `I` has `0x50 ≤ I` and `I + 4 ≤ 0x9F`, and where the
font region still holds the constructor's `fontset` the bytes
`memory[I .. I + 4]` are `fontset[5 * d .. 5 * d + 4]`; the five cells of two
distinct digits are disjoint. -/
theorem glyph_address (s : Chip8) (x d : Nat) (hwf : s.WF) (hx : opVx s.opcode = x)
    (hd : s.cpu_registers x = d) :
    ∃ s', OP_Fx29 s = some s' ∧ s' = { s with index_register := 0x50 + 5 * d } ∧
      (d < 16 → 0x50 ≤ s'.index_register ∧ s'.index_register + 4 ≤ 0x9F) ∧
      (d < 16 → (∀ i, i < 80 → s.memory (0x50 + i) = fontset.getD i 0) →
        ∀ j, j < 5 → s'.memory (s'.index_register + j) = fontset.getD (5 * d + j) 0) ∧
      (∀ d' j j', d < 16 → d' < 16 → d ≠ d' → j < 5 → j' < 5 →
        s'.index_register + j ≠ 0x50 + 5 * d' + j') := by
  have hv : d < 256 := hd ▸ hwf.reg_lt x (hx ▸ opVx_lt _)
  have hI : (0x50 + 5 * d) % 65536 = 0x50 + 5 * d := Nat.mod_eq_of_lt (by omega)
  have hrun : OP_Fx29 s = some { s with index_register := 0x50 + 5 * d } := by
    simp only [OP_Fx29, hx, hd, hI]
  refine ⟨_, hrun, rfl, ?_, ?_, ?_⟩
  · intro hd16
    show 0x50 ≤ 0x50 + 5 * d ∧ 0x50 + 5 * d + 4 ≤ 0x9F
    omega
  · intro hd16 hfont j hj
    show s.memory (0x50 + 5 * d + j) = _
    rw [Nat.add_assoc]
    exact hfont (5 * d + j) (by omega)
  · intro d' j j' hd16 hd'16 hne hj hj'
    show 0x50 + 5 * d + j ≠ 0x50 + 5 * d' + j'
    omega

/-- C15 at `glyphState`: `F229` with V2 = 0xA on the constructor's memory. -/
theorem glyph_address_witness :
    glyphState.WF ∧ opVx glyphState.opcode = 2 ∧ glyphState.cpu_registers 2 = 0xA ∧
    (∀ i, i < 80 → glyphState.memory (0x50 + i) = fontset.getD i 0) ∧
    ∃ s', OP_Fx29 glyphState = some s' ∧
      s' = { glyphState with index_register := 0x50 + 5 * 0xA } ∧
      (0xA < 16 → 0x50 ≤ s'.index_register ∧ s'.index_register + 4 ≤ 0x9F) ∧
      (0xA < 16 → (∀ i, i < 80 → glyphState.memory (0x50 + i) = fontset.getD i 0) →
        ∀ j, j < 5 → s'.memory (s'.index_register + j) = fontset.getD (5 * 0xA + j) 0) ∧
      (∀ d' j j', 0xA < 16 → d' < 16 → 0xA ≠ d' → j < 5 → j' < 5 →
        s'.index_register + j ≠ 0x50 + 5 * d' + j') :=
  ⟨glyphState_WF, by decide, by decide, (font_loaded (fun _ => 0)),
    glyph_address glyphState 2 0xA glyphState_WF (by decide) (by decide)⟩

/-- The result of `OP_Fx55` with the `x + 1` cells in range. -/
theorem OP_Fx55_post (s : Chip8) (hI : s.index_register + opVx s.opcode < 4096) :
    ∃ s1, OP_Fx55 s = some s1 ∧
      s1.cpu_registers = s.cpu_registers ∧ s1.index_register = s.index_register ∧
      s1.opcode = s.opcode ∧
      ∀ a, s1.memory a = if s.index_register ≤ a ∧ a < s.index_register + (opVx s.opcode + 1)
        then s.cpu_registers (a - s.index_register) else s.memory a := by
  unfold OP_Fx55
  refine forLoop_inv (fun k st => st.cpu_registers = s.cpu_registers ∧
      st.index_register = s.index_register ∧ st.opcode = s.opcode ∧
      ∀ a, st.memory a = if s.index_register ≤ a ∧ a < s.index_register + k
        then s.cpu_registers (a - s.index_register) else s.memory a) _ _ s ?_ ?_
  · refine ⟨rfl, rfl, rfl, fun a => ?_⟩
    rw [if_neg (by omega)]
  · rintro i st hi ⟨hr, hx, hop, hm⟩
    have hin : st.index_register + i < 4096 := by rw [hx]; omega
    refine ⟨{ st with memory := write st.memory (st.index_register + i) (st.cpu_registers i) },
      by simp only [store, hin, if_true], hr, hx, hop, fun a => ?_⟩
    show write st.memory (st.index_register + i) (st.cpu_registers i) a = _
    rw [hx, hr]
    by_cases ha : a = s.index_register + i
    · subst ha
      rw [write_same, if_pos (by omega)]
      congr 1
      omega
    · rw [write_other _ _ _ _ ha, hm a]
      by_cases h : s.index_register ≤ a ∧ a < s.index_register + i
      · rw [if_pos h, if_pos (by omega)]
      · rw [if_neg h, if_neg (by omega)]

/-- The result of `OP_Fx65` with the `x + 1` cells in range. -/
theorem OP_Fx65_post (s : Chip8) (hI : s.index_register + opVx s.opcode < 4096) :
    ∃ s3, OP_Fx65 s = some s3 ∧
      s3.memory = s.memory ∧ s3.index_register = s.index_register ∧
      ∀ j, s3.cpu_registers j = if j < opVx s.opcode + 1
        then s.memory (s.index_register + j) else s.cpu_registers j := by
  unfold OP_Fx65
  refine forLoop_inv (fun k st => st.memory = s.memory ∧
      st.index_register = s.index_register ∧
      ∀ j, st.cpu_registers j = if j < k
        then s.memory (s.index_register + j) else s.cpu_registers j) _ _ s ?_ ?_
  · exact ⟨rfl, rfl, fun j => by rw [if_neg (by omega)]⟩
  · rintro i st hi ⟨hm, hx, hr⟩
    have hin : st.index_register + i < 4096 := by rw [hx]; omega
    refine ⟨{ st with
        cpu_registers := write st.cpu_registers i (st.memory (st.index_register + i)) },
      by simp only [hin, if_true], hm, hx, fun j => ?_⟩
    show write st.cpu_registers i (st.memory (st.index_register + i)) j = _
    rw [hx, hm]
    by_cases hj : j = i
    · subst hj
      rw [write_same, if_pos (by omega)]
    · rw [write_other _ _ _ _ hj, hr j]
      by_cases h : j < i
      · rw [if_pos h, if_pos (by omega)]
      · rw [if_neg h, if_neg (by omega)]

/-- C16. Register range store and load: with `index_register + x < 4096`,
`OP_Fx55` completes, sets `memory[I + i]` to register `i` for `0 ≤ i ≤ x` and
changes no other memory cell, no register and not the index register; an
`OP_Fx65` with the same `x` run right after it completes and leaves the 16
registers at their values before the store.  `OP_Fx65` alone completes, sets
register `i` to `memory[I + i]` for `0 ≤ i ≤ x` and leaves the registers
above `x`, the memory and the index register unchanged. -/
theorem store_load_registers (s : Chip8) (x : Nat) (hx : opVx s.opcode = x)
    (hI : s.index_register + x < 4096) :
    (∃ s1, OP_Fx55 s = some s1 ∧
      (∀ i, i ≤ x → s1.memory (s.index_register + i) = s.cpu_registers i) ∧
      (∀ a, (∀ i, i ≤ x → a ≠ s.index_register + i) → s1.memory a = s.memory a) ∧
      (∀ i, s1.cpu_registers i = s.cpu_registers i) ∧
      s1.index_register = s.index_register ∧
      ∀ op, opVx op = x → ∃ s2, OP_Fx65 { s1 with opcode := op } = some s2 ∧
        ∀ i, i < 16 → s2.cpu_registers i = s.cpu_registers i) ∧
    (∃ s3, OP_Fx65 s = some s3 ∧
      (∀ i, i ≤ x → s3.cpu_registers i = s.memory (s.index_register + i)) ∧
      (∀ i, x < i → s3.cpu_registers i = s.cpu_registers i) ∧
      (∀ a, s3.memory a = s.memory a) ∧
      s3.index_register = s.index_register) := by
  subst hx
  constructor
  · obtain ⟨s1, h1, hr, hi, hop, hm⟩ := OP_Fx55_post s hI
    refine ⟨s1, h1, ?_, ?_, fun i => by rw [hr], hi, ?_⟩
    · intro i hle
      rw [hm, if_pos (by omega)]
      congr 1
      omega
    · intro a ha
      rw [hm]
      by_cases h : s.index_register ≤ a ∧ a < s.index_register + (opVx s.opcode + 1)
      · exact absurd (by omega) (ha (a - s.index_register) (by omega))
      · rw [if_neg h]
    · intro op hopx
      have hI2 : ({ s1 with opcode := op } : Chip8).index_register
          + opVx ({ s1 with opcode := op } : Chip8).opcode < 4096 := by
        show s1.index_register + opVx op < 4096
        rw [hi, hopx]
        exact hI
      obtain ⟨s2, h2, _, _, hr2⟩ := OP_Fx65_post { s1 with opcode := op } hI2
      refine ⟨s2, h2, fun i _ => ?_⟩
      rw [hr2 i]
      show (if i < opVx op + 1 then s1.memory (s1.index_register + i) else s1.cpu_registers i)
        = _
      rw [hopx, hi, hr]
      by_cases h : i < opVx s.opcode + 1
      · rw [if_pos h, hm, if_pos (by omega)]
        congr 1
        omega
      · rw [if_neg h]
  · obtain ⟨s3, h3, hm, hi, hr⟩ := OP_Fx65_post s hI
    refine ⟨s3, h3, ?_, ?_, fun a => by rw [hm], hi⟩
    · intro i hle
      rw [hr, if_pos (by omega)]
    · intro i hlt
      rw [hr, if_neg (by omega)]

/-- C16 at `storeState`: `F355` with V0..V3 = 11, 22, 33, 44 and the index
register at `0x300`. -/
theorem store_load_registers_witness :
    opVx storeState.opcode = 3 ∧ storeState.index_register + 3 < 4096 ∧
    (∃ s1, OP_Fx55 storeState = some s1 ∧
      (∀ i, i ≤ 3 → s1.memory (storeState.index_register + i) = storeState.cpu_registers i) ∧
      (∀ a, (∀ i, i ≤ 3 → a ≠ storeState.index_register + i) → s1.memory a = storeState.memory a) ∧
      (∀ i, s1.cpu_registers i = storeState.cpu_registers i) ∧
      s1.index_register = storeState.index_register ∧
      ∀ op, opVx op = 3 → ∃ s2, OP_Fx65 { s1 with opcode := op } = some s2 ∧
        ∀ i, i < 16 → s2.cpu_registers i = storeState.cpu_registers i) ∧
    (∃ s3, OP_Fx65 storeState = some s3 ∧
      (∀ i, i ≤ 3 → s3.cpu_registers i = storeState.memory (storeState.index_register + i)) ∧
      (∀ i, 3 < i → s3.cpu_registers i = storeState.cpu_registers i) ∧
      (∀ a, s3.memory a = storeState.memory a) ∧
      s3.index_register = storeState.index_register) :=
  ⟨by decide, by decide, store_load_registers storeState 3 (by decide) (by decide)⟩

/-- C17. The all-zero instruction word decodes as clear screen: from program
counter `p` (`p + 1 < 4096`) with `memory[p] = memory[p + 1] = 0` the decoder
selects `OP_00E0`; the cycle completes, leaves the 2048 framebuffer cells at
0 and the program counter at `p + 2`, and changes no register, no memory
cell, not the index register, the stack or the stack pointer. -/
theorem zero_word_clears_screen (s : Chip8) (p : Nat) (hp : s.program_counter = p)
    (hpc : p + 1 < 4096) (h0 : s.memory p = 0) (h1 : s.memory (p + 1) = 0) :
    decode (fetch s) = some .OP_00E0 ∧
    ∃ s', Cycle s = some s' ∧
      (∀ i, i < 2048 → s'.video i = 0) ∧ s'.program_counter = p + 2 ∧
      (∀ i, s'.cpu_registers i = s.cpu_registers i) ∧
      (∀ a, s'.memory a = s.memory a) ∧
      s'.index_register = s.index_register ∧
      (∀ i, s'.stack i = s.stack i) ∧ s'.stack_pointer = s.stack_pointer := by
  subst hp
  have hw : fetch s = 0 := by
    simp only [fetch, h0, h1]
    decide
  have hop : (fetched s).opcode = 0 := hw
  have hrun : Cycle s = some (tickTimers
      { fetched s with video := fun i => if i < 2048 then 0 else (fetched s).video i }) := by
    rw [Cycle_call s .Table0 hpc (by rw [hw]; rfl)]
    show (Table0 (fetched s)).map tickTimers = _
    rw [Table0_call _ .OP_00E0 (by rw [hop]; rfl)]
    rfl
  refine ⟨by rw [hw]; rfl, _, hrun, ?_, ?_, fun _ => rfl, fun _ => rfl, rfl, fun _ => rfl, rfl⟩
  · intro i hi
    show (if i < 2048 then 0 else (fetched s).video i) = 0
    rw [if_pos hi]
  · exact next_pc _ hpc

/-- C17 at the constructor's state: program counter `0x200` over zeroed
program memory. -/
theorem zero_word_clears_screen_witness :
    (init (fun _ => 0)).program_counter = 0x200 ∧ 0x200 + 1 < 4096 ∧
    (init (fun _ => 0)).memory 0x200 = 0 ∧ (init (fun _ => 0)).memory (0x200 + 1) = 0 ∧
    decode (fetch (init (fun _ => 0))) = some .OP_00E0 ∧
    ∃ s', Cycle (init (fun _ => 0)) = some s' ∧
      (∀ i, i < 2048 → s'.video i = 0) ∧ s'.program_counter = 0x200 + 2 ∧
      (∀ i, s'.cpu_registers i = (init (fun _ => 0)).cpu_registers i) ∧
      (∀ a, s'.memory a = (init (fun _ => 0)).memory a) ∧
      s'.index_register = (init (fun _ => 0)).index_register ∧
      (∀ i, s'.stack i = (init (fun _ => 0)).stack i) ∧ s'.stack_pointer = (init (fun _ => 0)).stack_pointer :=
  ⟨rfl, by decide, by decide, by decide,
    zero_word_clears_screen (init (fun _ => 0)) 0x200 rfl (by decide) (by decide) (by decide)⟩

/-- C18. Stack bounds: with the stack pointer `sp` in `0..16`, `OP_2nnn`
indexes the 16 stack entries in range exactly when `sp < 16` and then leaves
the stack pointer at `sp + 1 ≤ 16`; `OP_00EE` does so exactly when `sp > 0`
and then leaves it at `sp - 1`.  A call at `sp = 16` writes past the stack; a
return at `sp = 0` takes the 8-bit stack pointer to 255 and reads past the
stack. -/
theorem stack_bounds (s : Chip8) (sp : Nat) (hsp : s.stack_pointer = sp) (hle : sp ≤ 16) :
    ((OP_2nnn s).isSome = true ↔ sp < 16) ∧
    (∀ s', OP_2nnn s = some s' → s'.stack_pointer = sp + 1 ∧ s'.stack_pointer ≤ 16) ∧
    ((OP_00EE s).isSome = true ↔ 0 < sp) ∧
    (∀ s', OP_00EE s = some s' → s'.stack_pointer = sp - 1 ∧ s'.stack_pointer ≤ 16) ∧
    (sp = 16 → OP_2nnn s = none) ∧
    (sp = 0 → OP_00EE s = none ∧ (s.stack_pointer + 255) % 256 = 255) := by
  subst hsp
  refine ⟨?_, ?_, ?_, ?_, ?_, ?_⟩
  · simp only [OP_2nnn]
    split <;> simp [*]
  · intro s' h
    simp only [OP_2nnn] at h
    split at h
    · cases h
      show (s.stack_pointer + 1) % 256 = s.stack_pointer + 1 ∧ (s.stack_pointer + 1) % 256 ≤ 16
      omega
    · cases h
  · simp only [OP_00EE]
    split
    · simp only [Option.isSome_some, true_iff]
      omega
    · simp only [Option.isSome_none, Bool.false_eq_true, false_iff]
      omega
  · intro s' h
    simp only [OP_00EE] at h
    split at h
    · cases h
      show (s.stack_pointer + 255) % 256 = s.stack_pointer - 1 ∧
        (s.stack_pointer + 255) % 256 ≤ 16
      omega
    · cases h
  · intro h16
    simp only [OP_2nnn, h16]
    rfl
  · intro h0
    rw [h0]
    refine ⟨?_, rfl⟩
    simp only [OP_00EE, h0]
    rfl

/-- C18 at `callState`: two return addresses on the stack. -/
theorem stack_bounds_witness :
    callState.stack_pointer = 2 ∧ 2 ≤ 16 ∧
    ((OP_2nnn callState).isSome = true ↔ 2 < 16) ∧
    (∀ s', OP_2nnn callState = some s' → s'.stack_pointer = 2 + 1 ∧ s'.stack_pointer ≤ 16) ∧
    ((OP_00EE callState).isSome = true ↔ 0 < 2) ∧
    (∀ s', OP_00EE callState = some s' → s'.stack_pointer = 2 - 1 ∧ s'.stack_pointer ≤ 16) ∧
    (2 = 16 → OP_2nnn callState = none) ∧
    (2 = 0 → OP_00EE callState = none ∧ (callState.stack_pointer + 255) % 256 = 255) :=
  ⟨rfl, by decide, stack_bounds callState 2 rfl (by decide)⟩

/-- A property that every turn of a loop carries over is carried over by the
loop. -/
theorem forLoop_preserves (P : Chip8 → Prop) (body : Nat → Chip8 → Option Chip8)
    (hb : ∀ i st st', body i st = some st' → P st → P st') :
    ∀ n s s', forLoop n body s = some s' → P s → P s' := by
  intro n
  induction n with
  | zero =>
    intro s s' h hP
    cases h
    exact hP
  | succ n ih =>
    intro s s' h hP
    simp only [forLoop] at h
    obtain ⟨s1, h1, h2⟩ := Option.bind_eq_some.mp h
    exact hb n s1 s' h2 (ih s s1 h1 hP)

theorem drawPixel_TwoValued (b xPos yPos row col : Nat) (s s' : Chip8)
    (h : drawPixel b xPos yPos row col s = some s') (hP : TwoValued s) : TwoValued s' := by
  simp only [drawPixel] at h
  split at h
  · split at h
    · rename_i hidx
      cases h
      intro i hi
      show write s.video _ _ i = 0 ∨ write s.video _ _ i = 0xFFFFFFFF
      by_cases he : i = (yPos + row) * 64 + (xPos + col)
      · subst he
        rw [write_same]
        rcases hP _ hidx with h0 | h1
        · rw [h0]
          exact Or.inr (by decide)
        · rw [h1]
          exact Or.inl (by decide)
      · rw [write_other _ _ _ _ he]
        exact hP i hi
    · cases h
  · cases h
    exact hP

theorem OP_Dxyn_TwoValued (s s' : Chip8) (h : OP_Dxyn s = some s') (hP : TwoValued s) :
    TwoValued s' := by
  simp only [OP_Dxyn] at h
  refine forLoop_preserves TwoValued _ (fun row st st' hr hst => ?_) _ _ _ h hP
  simp only [drawRow] at hr
  split at hr
  · exact forLoop_preserves TwoValued _
      (fun col t t' hc ht => drawPixel_TwoValued _ _ _ _ _ t t' hc ht) _ _ _ hr hst
  · cases hr

/-- No handler but `OP_00E0` and `OP_Dxyn` writes the framebuffer. -/
theorem call_video (f : Chip8Func) (s s' : Chip8) (h0 : f ≠ .OP_00E0) (hD : f ≠ .OP_Dxyn)
    (h : f.call s = some s') : s'.video = s.video := by
  cases f
  case OP_00E0 => exact absurd rfl h0
  case OP_Dxyn => exact absurd rfl hD
  case OP_Fx33 =>
    simp only [Chip8Func.call, OP_Fx33] at h
    obtain ⟨s1, h1, h⟩ := Option.bind_eq_some.mp h
    obtain ⟨s2, h2, h3⟩ := Option.bind_eq_some.mp h
    rw [store_frame (fun t => t.video) (fun _ _ => rfl) _ _ _ _ h3,
      store_frame (fun t => t.video) (fun _ _ => rfl) _ _ _ _ h2,
      store_frame (fun t => t.video) (fun _ _ => rfl) _ _ _ _ h1]
  case OP_Fx55 =>
    exact forLoop_frame (fun t => t.video) _
      (fun i st st' hb => store_frame (fun t => t.video) (fun _ _ => rfl) _ _ _ _ hb) _ _ _ h
  case OP_Fx65 =>
    refine forLoop_frame (fun t => t.video) _ (fun i st st' hb => ?_) _ _ _ h
    split at hb
    · cases hb
      rfl
    · cases hb
  all_goals
    simp only [Chip8Func.call, OP_NULL, OP_00EE, OP_1nnn, OP_2nnn, OP_3xkk, OP_4xkk,
      OP_5xy0, OP_6xkk, OP_7xkk, OP_8xy0, OP_8xy1, OP_8xy2, OP_8xy3, OP_8xy4, OP_8xy5, OP_8xy6,
      OP_8xy7, OP_8xyE, OP_9xy0, OP_Annn, OP_Bnnn, OP_Cxkk, OP_Ex9E, OP_ExA1, OP_Fx07, OP_Fx0A,
      OP_Fx15, OP_Fx18, OP_Fx1E, OP_Fx29] at h
    repeat' split at h
    all_goals first
      | (cases h; rfl)
      | cases h

theorem call_TwoValued (f : Chip8Func) (s s' : Chip8) (h : f.call s = some s')
    (hP : TwoValued s) : TwoValued s' := by
  by_cases h0 : f = .OP_00E0
  · subst h0
    cases h
    intro i hi
    show (if i < 2048 then 0 else s.video i) = 0 ∨ _
    rw [if_pos hi]
    exact Or.inl rfl
  · by_cases hD : f = .OP_Dxyn
    · subst hD
      exact OP_Dxyn_TwoValued s s' h hP
    · intro i hi
      rw [call_video f s s' h0 hD h]
      exact hP i hi

theorem Cycle_TwoValued (s s' : Chip8) (h : Cycle s = some s') (hP : TwoValued s) :
    TwoValued s' := by
  obtain ⟨_, f, s1, _, hc, ht⟩ := Cycle_some s s' h
  subst ht
  exact call_TwoValued f (fetched s) s1 hc hP

theorem LoadRom_video (file : Option (List Nat)) (s s' : Chip8) (h : LoadRom file s = some s') :
    s'.video = s.video := by
  cases file with
  | none =>
    cases h
    rfl
  | some buffer =>
    exact forLoop_frame (fun t => t.video) _
      (fun i st st' hb => store_frame (fun t => t.video) (fun _ _ => rfl) _ _ _ _ hb) _ _ _ h

theorem Reachable_TwoValued (s : Chip8) (h : Reachable s) : TwoValued s := by
  induction h with
  | constructed draws => exact fun _ _ => Or.inl rfl
  | loaded file s s' _ hl ih =>
    intro i hi
    rw [LoadRom_video file s s' hl]
    exact ih i hi
  | cycle s s' _ hc ih => exact Cycle_TwoValued s s' hc ih
  | keys k s _ ih => exact ih

/-- C19. Framebuffer cell invariant: the constructor leaves every cell at 0;
every handler, and so every cycle that completes, keeps each of the 2048
cells at 0 or `0xFFFFFFFF`; hence in every reachable state the collision test
`cell == 0xFFFFFFFF` of `OP_Dxyn` and the renderer's test `cell != 0` agree on
every cell.  No handler other than `OP_00E0` and `OP_Dxyn` changes a cell. -/
theorem framebuffer_cells :
    (∀ draws i, i < 2048 → (init draws).video i = 0) ∧
    (∀ f s s', Chip8Func.call f s = some s' → TwoValued s → TwoValued s') ∧
    (∀ s s', Cycle s = some s' → TwoValued s → TwoValued s') ∧
    (∀ s, Reachable s → ∀ i, i < 2048 → (s.video i = 0xFFFFFFFF ↔ s.video i ≠ 0)) ∧
    (∀ f s s', f ≠ Chip8Func.OP_00E0 → f ≠ Chip8Func.OP_Dxyn → Chip8Func.call f s = some s' →
      ∀ i, s'.video i = s.video i) := by
  refine ⟨fun _ _ _ => rfl, call_TwoValued, Cycle_TwoValued, ?_, ?_⟩
  · intro s hr i hi
    rcases Reachable_TwoValued s hr i hi with h0 | h1
    · rw [h0]
      decide
    · rw [h1]
      decide
  · intro f s s' h0 hD h i
    rw [call_video f s s' h0 hD h]

/-- What a cycle on a word of family F calls: the entry of `tableF` at the
low byte, on the fetched state. -/
theorem Cycle_F (s : Chip8) (f : Chip8Func) (hpc : s.program_counter + 1 < 4096)
    (hf : opFamily (fetch s) = 0xF) (hb : tableF[opByte (fetch s)]? = some f) :
    Cycle s = (f.call (fetched s)).map tickTimers := by
  rw [Cycle_call s .TableF hpc (by rw [hf]; rfl)]
  show (TableF (fetched s)).map tickTimers = _
  rw [TableF_call _ f hb]

/-- C20. Timer write is followed by a decrement in the same cycle: from
program counter `p` (`p + 1 < 4096`), with `v` the value of register `x`, a
cycle on `Fx15` (`Fx18`) leaves `delay_timer` (`sound_timer`) at `v - 1` when
`v > 0` and at 0 when `v = 0`, not at `v`; a cycle on `Fx07` leaves in
register `x` the delay timer's value from before the cycle, the timer itself
going down after the copy. -/
theorem timer_write_then_tick (s : Chip8) (p x v : Nat) (hp : s.program_counter = p)
    (hpc : p + 1 < 4096) (hf : opFamily (fetch s) = 0xF) (hx : opVx (fetch s) = x)
    (hv : s.cpu_registers x = v) :
    (opByte (fetch s) = 0x15 →
      ∃ s', Cycle s = some s' ∧ s'.delay_timer = (if v > 0 then v - 1 else 0) ∧
        (v > 0 → s'.delay_timer ≠ v)) ∧
    (opByte (fetch s) = 0x18 →
      ∃ s', Cycle s = some s' ∧ s'.sound_timer = (if v > 0 then v - 1 else 0) ∧
        (v > 0 → s'.sound_timer ≠ v)) ∧
    (opByte (fetch s) = 0x07 →
      ∃ s', Cycle s = some s' ∧ s'.cpu_registers x = s.delay_timer ∧
        s'.delay_timer = (if s.delay_timer > 0 then s.delay_timer - 1 else 0)) := by
  subst hp hv
  have hx' : opVx (fetched s).opcode = x := hx
  refine ⟨fun hb => ?_, fun hb => ?_, fun hb => ?_⟩
  · have hrun : Cycle s = some (tickTimers
        { fetched s with delay_timer := (fetched s).cpu_registers (opVx (fetched s).opcode) }) :=
      Cycle_F s .OP_Fx15 hpc hf (by rw [hb]; rfl)
    refine ⟨_, hrun, ?_, ?_⟩
    · simp only [tickTimers, hx']
      show (if s.cpu_registers x > 0 then s.cpu_registers x - 1 else s.cpu_registers x) = _
      split <;> omega
    · intro hpos
      simp only [tickTimers, hx']
      show (if s.cpu_registers x > 0 then s.cpu_registers x - 1 else s.cpu_registers x) ≠ _
      rw [if_pos hpos]
      omega
  · have hrun : Cycle s = some (tickTimers
        { fetched s with sound_timer := (fetched s).cpu_registers (opVx (fetched s).opcode) }) :=
      Cycle_F s .OP_Fx18 hpc hf (by rw [hb]; rfl)
    refine ⟨_, hrun, ?_, ?_⟩
    · simp only [tickTimers, hx']
      show (if s.cpu_registers x > 0 then s.cpu_registers x - 1 else s.cpu_registers x) = _
      split <;> omega
    · intro hpos
      simp only [tickTimers, hx']
      show (if s.cpu_registers x > 0 then s.cpu_registers x - 1 else s.cpu_registers x) ≠ _
      rw [if_pos hpos]
      omega
  · have hrun : Cycle s = some (tickTimers
        { fetched s with
          cpu_registers := write (fetched s).cpu_registers (opVx (fetched s).opcode)
            (fetched s).delay_timer }) :=
      Cycle_F s .OP_Fx07 hpc hf (by rw [hb]; rfl)
    refine ⟨_, hrun, ?_, ?_⟩
    · simp only [tickTimers, hx', write_same]
      rfl
    · simp only [tickTimers]
      show (if s.delay_timer > 0 then s.delay_timer - 1 else s.delay_timer) = _
      split <;> omega

/-- C20 at `timerWriteState`: `F415`, `F418` and `F407` with V4 = 9 and the
delay timer at 5. -/
theorem timer_write_then_tick_witness :
    (timerWriteState 0x15).program_counter = 0x200 ∧ 0x200 + 1 < 4096 ∧
    opFamily (fetch (timerWriteState 0x15)) = 0xF ∧ opVx (fetch (timerWriteState 0x15)) = 4 ∧
    (timerWriteState 0x15).cpu_registers 4 = 9 ∧
    (∃ s', Cycle (timerWriteState 0x15) = some s' ∧
      s'.delay_timer = (if 9 > 0 then 9 - 1 else 0) ∧ (9 > 0 → s'.delay_timer ≠ 9)) ∧
    (∃ s', Cycle (timerWriteState 0x18) = some s' ∧
      s'.sound_timer = (if 9 > 0 then 9 - 1 else 0) ∧ (9 > 0 → s'.sound_timer ≠ 9)) ∧
    (∃ s', Cycle (timerWriteState 0x07) = some s' ∧
      s'.cpu_registers 4 = (timerWriteState 0x07).delay_timer ∧
      s'.delay_timer = (if (timerWriteState 0x07).delay_timer > 0
        then (timerWriteState 0x07).delay_timer - 1 else 0)) :=
  ⟨rfl, by decide, by decide, by decide, by decide,
    (timer_write_then_tick (timerWriteState 0x15) 0x200 4 9 rfl (by decide) (by decide)
      (by decide) (by decide)).1 (by decide),
    (timer_write_then_tick (timerWriteState 0x18) 0x200 4 9 rfl (by decide) (by decide)
      (by decide) (by decide)).2.1 (by decide),
    (timer_write_then_tick (timerWriteState 0x07) 0x200 4 9 rfl (by decide) (by decide)
      (by decide) (by decide)).2.2 (by decide)⟩

end Chip8
